import Mathlib

/-!
Verification development for the ubistormer EventStorming graph engine
(`src/graph/graphology-adapter.ts` and the `EventStormingAPI` defined in the
same file).  The TypeScript classes `GraphologyAdapter` and `EventStormingAPI`
are embedded shallowly: the graphology graph object becomes an explicit state
record, class methods become functions from that state, and methods that
mutate the graph return the new state together with their result value.

The adapter builds on the external `graphology` library with
`new Graph({ type: 'directed', multi: false })`.  That library is not part of
this repository, so the operations the adapter invokes on it are modelled
after graphology's documented behaviour for simple directed graphs:
  - a node is a key with an attribute record; `addNode` throws a `UsageError`
    when the key already exists;
  - an edge is a key with source/target endpoints and an attribute record;
    `addEdgeWithKey` throws when the key already exists, when an endpoint is
    missing, or (because the graph is not a multigraph) when some edge with
    the same ordered (source, target) pair already exists;
  - `dropNode` removes the node and every incident edge;
  - iteration (`forEachNode`, `forEachEdge`, `forEachOutNeighbor`, ...)
    follows insertion order, and `forEachOutNeighbor` visits each distinct
    neighbour once.
Throwing operations are modelled with an explicit error value.  In this
code base `addEdgeWithKey` is always called with the attribute record's own
`source`/`target` as the endpoints, so the model stores each edge as its key
paired with the attribute record only.
-/

/-! ## String helpers

JavaScript string primitives used by the adapter (`trim`, `toLowerCase`,
`includes`, template-literal concatenation), modelled over `List Char` so
that they reduce inside the kernel. -/

def isSpaceChar (c : Char) : Bool := c == ' ' || c == '\t' || c == '\n' || c == '\r'

/-- JavaScript `String.prototype.trim` (whitespace stripped from both ends). -/
def trimStr (s : String) : String :=
  ⟨(s.data.dropWhile isSpaceChar).reverse.dropWhile isSpaceChar |>.reverse⟩

/-- JavaScript `String.prototype.toLowerCase` (ASCII case folding suffices here). -/
def lowerStr (s : String) : String := ⟨s.data.map Char.toLower⟩

def listContainsSub (hay needle : List Char) : Bool :=
  List.isPrefixOf needle hay ||
    match hay with
    | [] => false
    | _ :: t => listContainsSub t needle

/-- JavaScript `String.prototype.includes`. -/
def strIncludes (hay needle : String) : Bool := listContainsSub hay.data needle.data

/-- Character class of the id-format regex `/^[a-z0-9\-_]+$/`. -/
def isKebabChar (c : Char) : Bool := c.isLower || c.isDigit || c == '-' || c == '_'

/-- JavaScript `/^[a-z0-9\-_]+$/.test(s)`. -/
def matchesKebab (s : String) : Bool := s != "" && s.data.all isKebabChar

/-! ## Data model (`eventstorming-api.ts`) -/

/-- `NodeType`: the nine node kinds of the `NodeType` union type. -/
inductive NodeType where
  | actor
  | command
  | aggregate
  | event
  | viewmodel
  | preconditions
  | guards
  | branchinglogic
  | boundary
deriving DecidableEq, Repr

/-- The string form of a `NodeType` (the TypeScript values are strings). -/
def NodeType.str : NodeType → String
  | .actor => "actor"
  | .command => "command"
  | .aggregate => "aggregate"
  | .event => "event"
  | .viewmodel => "viewmodel"
  | .preconditions => "preconditions"
  | .guards => "guards"
  | .branchinglogic => "branchinglogic"
  | .boundary => "boundary"

/-- `EdgeLabel`: the nine relationship labels.  Constructor names are
Lean-friendly; `EdgeLabel.str` gives the exact TypeScript string values. -/
inductive EdgeLabel where
  | issues
  | onAgg
  | thenEvt
  | ifBranch
  | ifGuard
  | ifPre
  | thenPolicy
  | supportsDecision
  | marksPivotal
deriving DecidableEq, Repr

def EdgeLabel.str : EdgeLabel → String
  | .issues => "issues"
  | .onAgg => "on"
  | .thenEvt => "then"
  | .ifBranch => "if"
  | .ifGuard => "if guard"
  | .ifPre => "if preconditions"
  | .thenPolicy => "then (policy)"
  | .supportsDecision => "supports decision for"
  | .marksPivotal => "marks pivotal"

/-- `subtype?: 'pivotal' | 'lane'` of boundary nodes. -/
inductive BoundarySubtype where
  | pivotal
  | lane
deriving DecidableEq, Repr

/-- `EventStormingNode`.  The numeric coordinate payloads (`position`,
`dimensions`) are opaque to the engine — it only carries them — so their
JavaScript numbers are modelled as integers. -/
structure EventStormingNode where
  id : String
  label : String
  type : NodeType
  description : Option String := none
  businessContext : Option String := none
  assertion : Option String := none
  coreCommand : Option String := none
  shellCommand : Option String := none
  hydrationFunction : Option String := none
  outcomeAssertions : Option String := none
  exampleState : Option String := none
  domainModel : Option String := none
  yaml : Option String := none
  objectExamples : Option String := none
  position : Option (Int × Int) := none
  dimensions : Option (Int × Int) := none
  subtype : Option BoundarySubtype := none
deriving DecidableEq, Repr

/-- `EventStormingEdge`. -/
structure EventStormingEdge where
  source : String
  target : String
  label : EdgeLabel
deriving DecidableEq, Repr

/-- `EventStormingGraph`: the snapshot format `{ nodes[], edges[] }`. -/
structure EventStormingGraph where
  nodes : List EventStormingNode := []
  edges : List EventStormingEdge := []
deriving DecidableEq, Repr

deriving instance DecidableEq for Except

/-- `ValidationResult`. -/
structure ValidationResult where
  isValid : Bool
  errors : List String := []
  warnings : List String := []
deriving DecidableEq, Repr

/-- `Partial<EventStormingNode>` as passed to `updateNode`: any subset of the
fields may be present; a present field overrides the current value under the
object-spread merge `{ ...currentNode, ...updates }`. -/
structure NodeUpdates where
  id : Option String := none
  label : Option String := none
  type : Option NodeType := none
  description : Option String := none
  businessContext : Option String := none
  assertion : Option String := none
  coreCommand : Option String := none
  shellCommand : Option String := none
  hydrationFunction : Option String := none
  outcomeAssertions : Option String := none
  exampleState : Option String := none
  domainModel : Option String := none
  yaml : Option String := none
  objectExamples : Option String := none
  position : Option (Int × Int) := none
  dimensions : Option (Int × Int) := none
  subtype : Option BoundarySubtype := none
deriving DecidableEq, Repr

/-- The object-spread merge `{ ...currentNode, ...updates }`. -/
def mergeNode (cur : EventStormingNode) (u : NodeUpdates) : EventStormingNode :=
  { id := u.id.getD cur.id
    label := u.label.getD cur.label
    type := u.type.getD cur.type
    description := u.description <|> cur.description
    businessContext := u.businessContext <|> cur.businessContext
    assertion := u.assertion <|> cur.assertion
    coreCommand := u.coreCommand <|> cur.coreCommand
    shellCommand := u.shellCommand <|> cur.shellCommand
    hydrationFunction := u.hydrationFunction <|> cur.hydrationFunction
    outcomeAssertions := u.outcomeAssertions <|> cur.outcomeAssertions
    exampleState := u.exampleState <|> cur.exampleState
    domainModel := u.domainModel <|> cur.domainModel
    yaml := u.yaml <|> cur.yaml
    objectExamples := u.objectExamples <|> cur.objectExamples
    position := u.position <|> cur.position
    dimensions := u.dimensions <|> cur.dimensions
    subtype := u.subtype <|> cur.subtype }

/-! ## The graphology graph state -/

/-- The state of the `graphology` `Graph` held by `GraphologyAdapter`:
nodes as (key, attributes) entries and edges as (key, attributes) entries,
both in insertion order. -/
structure GGraph where
  nodes : List (String × EventStormingNode) := []
  edges : List (String × EventStormingEdge) := []
deriving DecidableEq, Repr

/-- Key lookup in an insertion-ordered (key, value) list: the association
retrieval of the graphology maps. -/
def lookupKey {β : Type} : List (String × β) → String → Option β
  | [], _ => none
  | p :: t, k => if p.1 == k then some p.2 else lookupKey t k

/-- The edge key `` `${source}-${label}-${target}` `` used by
`loadFromEventStormingData`, `addEdge` and `removeEdge`. -/
def mkEdgeKey (source : String) (label : EdgeLabel) (target : String) : String :=
  source ++ "-" ++ label.str ++ "-" ++ target

def edgeKeyOf (e : EventStormingEdge) : String := mkEdgeKey e.source e.label e.target

/-- `graph.hasNode(id)`. -/
def GGraph.hasNodeKey (g : GGraph) (id : String) : Bool :=
  (lookupKey g.nodes id).isSome

/-- `graph.getNodeAttributes(id)` as a partial lookup (total in graphology
whenever the node exists, which is the only way the adapter calls it). -/
def GGraph.attrs (g : GGraph) (id : String) : Option EventStormingNode :=
  lookupKey g.nodes id

/-- `graph.hasEdge(edgeKey)`. -/
def GGraph.hasEdgeKey (g : GGraph) (key : String) : Bool :=
  (lookupKey g.edges key).isSome

/-- Does some edge with the given ordered (source, target) endpoint pair
exist?  A simple (`multi: false`) graphology graph rejects a second such
edge. -/
def GGraph.hasPair (g : GGraph) (source target : String) : Bool :=
  g.edges.any fun q => q.2.source == source && q.2.target == target

/-- Raw node insertion (the successful case of `graph.addNode`). -/
def GGraph.insertNode (g : GGraph) (n : EventStormingNode) : GGraph :=
  { g with nodes := g.nodes ++ [(n.id, n)] }

/-- Raw edge insertion (the successful case of `graph.addEdgeWithKey`). -/
def GGraph.insertEdge (g : GGraph) (key : String) (e : EventStormingEdge) : GGraph :=
  { g with edges := g.edges ++ [(key, e)] }

/-- `graph.dropNode(id)`: removes the node and every incident edge. -/
def GGraph.dropNode (g : GGraph) (id : String) : GGraph :=
  { nodes := g.nodes.filter fun p => p.1 != id
    edges := g.edges.filter fun q => q.2.source != id && q.2.target != id }

/-- `graph.dropEdge(edgeKey)`. -/
def GGraph.dropEdge (g : GGraph) (key : String) : GGraph :=
  { g with edges := g.edges.filter fun q => q.1 != key }

/-- First-occurrence deduplication, matching the order in which graphology
iteration (`forEachOutNeighbor`, JS `Set`) presents distinct elements. -/
def dedupF : List String → List String
  | [] => []
  | x :: xs => x :: (dedupF xs).filter (· != x)

/-- The distinct out-neighbour keys of a node, in insertion order
(`graph.forEachOutNeighbor`). -/
def GGraph.outNeighborKeys (g : GGraph) (id : String) : List String :=
  dedupF ((g.edges.filter fun q => q.2.source == id).map fun q => q.2.target)

/-! ## GraphologyAdapter (`src/graph/graphology-adapter.ts`) -/

namespace GraphologyAdapter

/-- Node-loading loop of `loadFromEventStormingData`: `graph.addNode(node.id,
node)` for each snapshot node; graphology throws when the id already exists,
which aborts the loop.  Returns the state reached together with the thrown
error, if any. -/
def loadNodes : List EventStormingNode → GGraph → GGraph × Option String
  | [], g => (g, none)
  | n :: rest, g =>
    if g.hasNodeKey n.id then
      (g, some ("UsageError: node " ++ n.id ++ " already exists"))
    else
      loadNodes rest (g.insertNode n)

/-- Edge-loading loop of `loadFromEventStormingData`: an edge is added only
when both endpoints exist and its key is not taken; `addEdgeWithKey` still
throws when a distinct-key edge with the same (source, target) pair exists,
because the graph is not a multigraph. -/
def loadEdges : List EventStormingEdge → GGraph → GGraph × Option String
  | [], g => (g, none)
  | e :: rest, g =>
    if g.hasNodeKey e.source && g.hasNodeKey e.target then
      if g.hasEdgeKey (edgeKeyOf e) then
        loadEdges rest g
      else if g.hasPair e.source e.target then
        (g, some ("UsageError: an edge linking " ++ e.source ++ " to " ++ e.target ++
          " already exists"))
      else
        loadEdges rest (g.insertEdge (edgeKeyOf e) e)
    else
      loadEdges rest g

/-- `loadFromEventStormingData(data)`: clears the graph, adds all nodes, then
adds the edges that pass the endpoint/key guards.  The prior state is
discarded by `graph.clear()`, so the function only takes the snapshot.  The
second component is the error thrown by graphology, if any. -/
def loadFromEventStormingData (data : EventStormingGraph) : GGraph × Option String :=
  let (g1, err) := loadNodes data.nodes {}
  match err with
  | some m => (g1, some m)
  | none => loadEdges data.edges g1

/-- `exportToEventStormingData()`. -/
def exportToEventStormingData (g : GGraph) : EventStormingGraph :=
  { nodes := g.nodes.map (·.2), edges := g.edges.map (·.2) }

/-- `addNode(node)` (adapter level). -/
def addNode (g : GGraph) (node : EventStormingNode) : Bool × GGraph :=
  if g.hasNodeKey node.id then (false, g)
  else (true, g.insertNode node)

/-- `hasNode(nodeId)`. -/
def hasNode (g : GGraph) (nodeId : String) : Bool := g.hasNodeKey nodeId

/-- `getNode(nodeId)`. -/
def getNode (g : GGraph) (nodeId : String) : Option EventStormingNode :=
  g.attrs nodeId

/-- `updateNode(nodeId, updates)`: shallow-merges the updates into the
current attributes via `replaceNodeAttributes`.  The node *key* is
unchanged even when `updates` contains an `id` field. -/
def updateNode (g : GGraph) (nodeId : String) (updates : NodeUpdates) : Bool × GGraph :=
  match g.attrs nodeId with
  | none => (false, g)
  | some cur =>
    (true,
     { g with nodes := g.nodes.map fun p =>
        if p.1 == nodeId then (p.1, mergeNode cur updates) else p })

/-- `removeNode(nodeId)` (adapter level): `dropNode` cascades edge removal. -/
def removeNode (g : GGraph) (nodeId : String) : Bool × GGraph :=
  if g.hasNodeKey nodeId then (true, g.dropNode nodeId)
  else (false, g)

/-- `getNodesByType(type)`. -/
def getNodesByType (g : GGraph) (t : NodeType) : List EventStormingNode :=
  (g.nodes.map (·.2)).filter fun n => n.type == t

/-- `filterNodes(predicate)`. -/
def filterNodes (g : GGraph) (p : EventStormingNode → Bool) : List EventStormingNode :=
  (g.nodes.map (·.2)).filter p

/-- `addEdge(edge)` (adapter level).  The duplicate-key and endpoint guards
come first, mirroring the source; the remaining `addEdgeWithKey` call throws
exactly when the simple graph already holds an edge with the same ordered
(source, target) pair. -/
def addEdge (g : GGraph) (edge : EventStormingEdge) : Except String (Bool × GGraph) :=
  let edgeKey := edgeKeyOf edge
  if g.hasEdgeKey edgeKey then .ok (false, g)
  else if !g.hasNodeKey edge.source || !g.hasNodeKey edge.target then .ok (false, g)
  else if g.hasPair edge.source edge.target then
    .error ("UsageError: an edge linking " ++ edge.source ++ " to " ++ edge.target ++
      " already exists")
  else .ok (true, g.insertEdge edgeKey edge)

/-- `removeEdge(source, target, label)` (adapter level). -/
def removeEdge (g : GGraph) (source target : String) (label : EdgeLabel) : Bool × GGraph :=
  let edgeKey := mkEdgeKey source label target
  if g.hasEdgeKey edgeKey then (true, g.dropEdge edgeKey)
  else (false, g)

/-- `getNodeEdges(nodeId)`: all edges incident to the node (in or out). -/
def getNodeEdges (g : GGraph) (nodeId : String) : List EventStormingEdge :=
  if g.hasNodeKey nodeId then
    (g.edges.filter fun q => q.2.source == nodeId || q.2.target == nodeId).map (·.2)
  else []

/-- `filterEdges(predicate)`. -/
def filterEdges (g : GGraph) (p : EventStormingEdge → Bool) : List EventStormingEdge :=
  (g.edges.map (·.2)).filter p

/-- `getOutNeighborsByLabel(nodeId, label)`: attribute records of the targets
of the matching out-edges (edge iteration order, one entry per edge). -/
def getOutNeighborsByLabel (g : GGraph) (nodeId : String) (label : EdgeLabel) :
    List EventStormingNode :=
  if g.hasNodeKey nodeId then
    (g.edges.filter fun q => q.2.source == nodeId && q.2.label == label).filterMap
      fun q => g.attrs q.2.target
  else []

/-- `getInNeighborsByLabel(nodeId, label)`. -/
def getInNeighborsByLabel (g : GGraph) (nodeId : String) (label : EdgeLabel) :
    List EventStormingNode :=
  if g.hasNodeKey nodeId then
    (g.edges.filter fun q => q.2.target == nodeId && q.2.label == label).filterMap
      fun q => g.attrs q.2.source
  else []

end GraphologyAdapter

/-! ## EventStormingAPI (validation and CRUD) -/

namespace EventStormingAPI

/-- The `validTypes` array of `validateNode` — note that it lists eight
kinds and does not contain `'boundary'`. -/
def validTypes : List NodeType :=
  [.actor, .command, .aggregate, .event, .viewmodel, .preconditions, .guards,
   .branchinglogic]

/-- `validateNode(node)`. -/
def validateNode (node : EventStormingNode) : ValidationResult :=
  let errors :=
    (if trimStr node.id == "" then ["Node ID cannot be empty"] else []) ++
    (if trimStr node.label == "" then ["Node label cannot be empty"] else []) ++
    (if !(validTypes.contains node.type) then
      ["Invalid node type \x27" ++ node.type.str ++
        "\x27. Must be one of: actor, command, aggregate, event, viewmodel, preconditions, guards, branchinglogic"]
     else [])
  let warnings :=
    if node.id != "" && !(matchesKebab node.id) then
      ["Node ID \x27" ++ node.id ++
        "\x27 should use kebab-case format (lowercase with hyphens/underscores)"]
    else []
  { isValid := errors.isEmpty, errors := errors, warnings := warnings }

/-- The `validCombinations` table of `validateEdge`: the permitted
(source.type, target.type) pairs per edge label. -/
def validCombinations : EdgeLabel → List (NodeType × NodeType)
  | .issues => [(.actor, .command)]
  | .onAgg => [(.command, .aggregate)]
  | .thenEvt => [(.command, .event)]
  | .ifBranch => [(.event, .branchinglogic)]
  | .ifGuard => [(.command, .guards)]
  | .ifPre => [(.command, .preconditions)]
  | .thenPolicy => [(.event, .command)]
  | .supportsDecision => [(.viewmodel, .command)]
  | .marksPivotal => [(.event, .boundary)]

/-- `validateEdge(edge, sourceNode, targetNode)`. -/
def validateEdge (edge : EventStormingEdge) (sourceNode targetNode : EventStormingNode) :
    ValidationResult :=
  let validCombs := validCombinations edge.label
  let isValidCombination :=
    validCombs.any fun combo => combo.1 == sourceNode.type && combo.2 == targetNode.type
  let errors :=
    if !isValidCombination then
      ["Invalid edge: " ++ sourceNode.type.str ++ " --" ++ edge.label.str ++ "--> " ++
        targetNode.type.str ++ ". Valid combinations for \x27" ++ edge.label.str ++
        "\x27: " ++
        String.intercalate ", "
          (validCombs.map fun c => c.1.str ++ " -> " ++ c.2.str)]
    else []
  { isValid := errors.isEmpty, errors := errors, warnings := [] }

/-- `addNode(node)` (API level). -/
def addNode (g : GGraph) (node : EventStormingNode) : ValidationResult × GGraph :=
  if g.hasNodeKey node.id then
    ({ isValid := false,
       errors := ["Node with ID \x27" ++ node.id ++ "\x27 already exists"] }, g)
  else
    let validation := validateNode node
    if !validation.isValid then (validation, g)
    else
      ({ isValid := true, errors := [], warnings := validation.warnings },
       (GraphologyAdapter.addNode g node).2)

/-- `updateNode(id, updates)` (API level). -/
def updateNode (g : GGraph) (id : String) (updates : NodeUpdates) :
    ValidationResult × GGraph :=
  match GraphologyAdapter.getNode g id with
  | none =>
    ({ isValid := false,
       errors := ["Node with ID \x27" ++ id ++ "\x27 not found"] }, g)
  | some currentNode =>
    let updatedNode := mergeNode currentNode updates
    let validation := validateNode updatedNode
    if !validation.isValid then (validation, g)
    else
      ({ isValid := true, errors := [], warnings := validation.warnings },
       (GraphologyAdapter.updateNode g id updates).2)

/-- `removeNode(id)` (API level). -/
def removeNode (g : GGraph) (id : String) : ValidationResult × GGraph :=
  if !(g.hasNodeKey id) then
    ({ isValid := false,
       errors := ["Node with ID \x27" ++ id ++ "\x27 not found"] }, g)
  else
    ({ isValid := true, errors := [], warnings := [] },
     (GraphologyAdapter.removeNode g id).2)

/-- `addEdge(edge)` (API level).  The `Except` layer carries the
graphology `UsageError` that `addEdgeWithKey` raises in a non-multi graph
when a distinct-key edge with the same endpoints exists; the API does not
catch it. -/
def addEdge (g : GGraph) (edge : EventStormingEdge) :
    Except String (ValidationResult × GGraph) :=
  match GraphologyAdapter.getNode g edge.source with
  | none =>
    .ok ({ isValid := false,
           errors := ["Source node \x27" ++ edge.source ++ "\x27 not found"] }, g)
  | some sourceNode =>
    match GraphologyAdapter.getNode g edge.target with
    | none =>
      .ok ({ isValid := false,
             errors := ["Target node \x27" ++ edge.target ++ "\x27 not found"] }, g)
    | some targetNode =>
      let validation := validateEdge edge sourceNode targetNode
      if !validation.isValid then .ok (validation, g)
      else
        match GraphologyAdapter.addEdge g edge with
        | .error m => .error m
        | .ok (added, g') =>
          if !added then
            .ok ({ isValid := false,
                   errors := ["Edge already exists: " ++ edge.source ++ " --" ++
                     edge.label.str ++ "--> " ++ edge.target] }, g)
          else
            .ok ({ isValid := true, errors := [], warnings := validation.warnings }, g')

/-- `removeEdge(source, target, label)` (API level). -/
def removeEdge (g : GGraph) (source target : String) (label : EdgeLabel) :
    ValidationResult × GGraph :=
  let (removed, g') := GraphologyAdapter.removeEdge g source target label
  if !removed then
    ({ isValid := false,
       errors := ["Edge not found: " ++ source ++ " --" ++ label.str ++ "--> " ++
         target] }, g)
  else
    ({ isValid := true, errors := [], warnings := [] }, g')

/-- `getNode(id)` (API level; `null` becomes `undefined`, both `none` here). -/
def getNode (g : GGraph) (id : String) : Option EventStormingNode :=
  GraphologyAdapter.getNode g id

/-- `getNodeEdges(nodeId)` (API level). -/
def getNodeEdges (g : GGraph) (nodeId : String) : List EventStormingEdge :=
  GraphologyAdapter.getNodeEdges g nodeId

/-- `getNodesByType(type)` (API level). -/
def getNodesByType (g : GGraph) (t : NodeType) : List EventStormingNode :=
  GraphologyAdapter.getNodesByType g t

/-- `validateGraph()`. -/
def validateGraph (g : GGraph) : ValidationResult :=
  let allEdges := GraphologyAdapter.filterEdges g fun _ => true
  let connectedNodeIds := allEdges.flatMap fun e => [e.source, e.target]
  let allNodes := GraphologyAdapter.filterNodes g fun _ => true
  let orphanedNodes := allNodes.filter fun n => !(connectedNodeIds.contains n.id)
  let warnings1 :=
    if orphanedNodes.length > 0 then
      ["Orphaned nodes found: " ++
        String.intercalate ", " (orphanedNodes.map (·.label))]
    else []
  let commands := getNodesByType g .command
  let errors := commands.filterMap fun command =>
    if allEdges.any fun e => e.source == command.id && e.label == EdgeLabel.thenEvt then
      none
    else
      some ("Command \x27" ++ command.label ++ "\x27 must generate at least one event")
  let events := getNodesByType g .event
  let warnings2 := events.filterMap fun event =>
    if allEdges.any fun e => e.target == event.id && e.label == EdgeLabel.thenEvt then
      none
    else
      some ("Event \x27" ++ event.label ++ "\x27 is not generated by any command")
  { isValid := errors.isEmpty, errors := errors, warnings := warnings1 ++ warnings2 }

/-- `importFromJSON` after a successful `JSON.parse` of a structurally valid
snapshot (the `nodes`/`edges` array checks cannot fail on a typed
`EventStormingGraph` value).  A graphology `UsageError` thrown during the
load is caught by the surrounding `try`/`catch` and converted into the
parse-failure result, leaving the partially loaded graph in place. -/
def importParsed (data : EventStormingGraph) : ValidationResult × GGraph :=
  let (g, err) := GraphologyAdapter.loadFromEventStormingData data
  match err with
  | some m =>
    ({ isValid := false, errors := ["Failed to parse JSON: " ++ m] }, g)
  | none =>
    let validation := validateGraph g
    ({ isValid := true, errors := [], warnings := validation.warnings }, g)

end EventStormingAPI

/-! ## Path enumeration and impact analysis (`GraphologyAdapter`) -/

namespace GraphologyAdapter

/-- The recursive `dfs` closure of `findAllPaths`.  The mutable
`visited` set with its add/delete discipline is equivalent to passing the
extended set to the recursive calls.  The source guards the recursion with
`path.length > maxLength` where `path` excludes `currentId`; here the
equivalent quantity `maxLength + 1 - path.length` is passed as a structurally
decreasing `fuel` argument (the guard fires exactly when it is zero), so a
reported path holds at most `maxLength + 1` nodes. -/
def dfs (g : GGraph) (targetId : String) : Nat → List String → String → List String →
    List (List String)
  | 0, _, _, _ => []
  | fuel + 1, visited, currentId, path =>
    if currentId == targetId then [path ++ [currentId]]
    else if visited.contains currentId then []
    else
      (g.outNeighborKeys currentId).flatMap fun neighbor =>
        dfs g targetId fuel (currentId :: visited) neighbor (path ++ [currentId])

/-- `findAllPaths(sourceId, targetId, maxLength)`. -/
def findAllPaths (g : GGraph) (sourceId targetId : String) (maxLength : Nat) :
    List (List String) :=
  if !(g.hasNodeKey sourceId) || !(g.hasNodeKey targetId) then []
  else dfs g targetId (maxLength + 1) [] sourceId []

/-- JS `Set.prototype.add` on a set represented as its insertion-ordered
element list. -/
def addSet (l : List String) (x : String) : List String :=
  if l.contains x then l else l ++ [x]

/-- One fuel-indexed pass of the BFS loop of `getImpactAnalysis`.  The loop
terminates in the source because every iteration pops the queue and pushes
only unvisited out-neighbours; the fuel chosen in `getImpactAnalysis` is
proved large enough that the `0` branch is never taken. -/
def bfsGo (g : GGraph) : Nat → List String → List String → List String → List String
  | 0, _, allReachable, _ => allReachable
  | _ + 1, _, allReachable, [] => allReachable
  | fuel + 1, visited, allReachable, current :: rest =>
    if visited.contains current then bfsGo g fuel visited allReachable rest
    else
      let visited' := visited ++ [current]
      let allReachable' := addSet allReachable current
      let pushed := (g.outNeighborKeys current).filter fun nb => !(visited'.contains nb)
      bfsGo g fuel visited' allReachable' (rest ++ pushed)

/-- An upper bound on the number of iterations the BFS loop can take when
started on `queue`: every pushed element is an edge target, a node is
processed at most once, and one processing pushes at most `g.edges.length`
elements. -/
def bfsFuel (g : GGraph) (queue : List String) : Nat :=
  queue.length + (dedupF (g.edges.map fun q => q.2.target)).length * (1 + g.edges.length)

/-- The result record of `getImpactAnalysis`. -/
structure ImpactResult where
  directImpact : List EventStormingNode
  indirectImpact : List EventStormingNode
  totalReach : Nat
deriving DecidableEq, Repr

/-- `getImpactAnalysis(nodeId)`.  `directImpact` collects the attribute
records of the distinct out-neighbours; the BFS starts from the
out-neighbour queue with the start node pre-marked visited; `allReachable`
initially holds the direct neighbour keys. -/
def getImpactAnalysis (g : GGraph) (nodeId : String) : ImpactResult :=
  if !(g.hasNodeKey nodeId) then
    { directImpact := [], indirectImpact := [], totalReach := 0 }
  else
    let directKeys := g.outNeighborKeys nodeId
    let directImpact := directKeys.filterMap fun k => g.attrs k
    let allReachable := bfsGo g (bfsFuel g directKeys) [nodeId] directKeys directKeys
    let indirectImpact :=
      (allReachable.filter fun rid => !(directImpact.any fun n => n.id == rid)).filterMap
        fun rid => g.attrs rid
    { directImpact := directImpact, indirectImpact := indirectImpact,
      totalReach := allReachable.length }

end GraphologyAdapter

/-! ## Command execution paths (`EventStormingAPI`) -/

inductive PathType where
  | HAPPY_PATH
  | ERROR_PATH
  | POLICY_PATH
deriving DecidableEq, Repr

structure ExecutionPathEntry where
  path : List EventStormingNode
  pathType : PathType
  description : String
deriving DecidableEq, Repr

structure ExecutionPathsResult where
  command : Option EventStormingNode
  paths : List ExecutionPathEntry
deriving DecidableEq, Repr

namespace EventStormingAPI

/-- `getCommandExecutionPaths(commandId)`. -/
def getCommandExecutionPaths (g : GGraph) (commandId : String) : ExecutionPathsResult :=
  match GraphologyAdapter.getNode g commandId with
  | none => { command := none, paths := [] }
  | some command =>
    if command.type != .command then { command := none, paths := [] }
    else
      let events := GraphologyAdapter.getOutNeighborsByLabel g commandId .thenEvt
      let paths := events.flatMap fun event =>
        (GraphologyAdapter.findAllPaths g commandId event.id 5).map fun pathIds =>
          let pathNodes := pathIds.filterMap fun id => GraphologyAdapter.getNode g id
          let pathType1 :=
            if strIncludes (lowerStr event.label) "error" ||
                strIncludes (lowerStr event.label) "failed" then
              PathType.ERROR_PATH
            else PathType.HAPPY_PATH
          let policyCommands :=
            GraphologyAdapter.getOutNeighborsByLabel g event.id .thenPolicy
          let pathType :=
            if policyCommands.length > 0 then PathType.POLICY_PATH else pathType1
          { path := pathNodes, pathType := pathType,
            description := command.label ++ " → " ++ event.label ++
              (if policyCommands.length > 0 then " → Policy Actions" else "") :
            ExecutionPathEntry }
      { command := some command, paths := paths }

end EventStormingAPI

/-! ## Single mutations -/

/-- The five single mutations of the public mutation surface. -/
inductive Mutation where
  | addNode (node : EventStormingNode)
  | updateNode (id : String) (updates : NodeUpdates)
  | removeNode (id : String)
  | addEdge (edge : EventStormingEdge)
  | removeEdge (source target : String) (label : EdgeLabel)
deriving DecidableEq, Repr

/-- Dispatch a mutation to its `EventStormingAPI` method.  Only `addEdge`
can raise (the graphology parallel-edge `UsageError`); the other four always
return a `ValidationResult`. -/
def applyMutation (m : Mutation) (g : GGraph) : Except String (ValidationResult × GGraph) :=
  match m with
  | .addNode node => .ok (EventStormingAPI.addNode g node)
  | .updateNode id updates => .ok (EventStormingAPI.updateNode g id updates)
  | .removeNode id => .ok (EventStormingAPI.removeNode g id)
  | .addEdge edge => EventStormingAPI.addEdge g edge
  | .removeEdge source target label =>
    .ok (EventStormingAPI.removeEdge g source target label)

/-- The graph state after a mutation; graphology throws before inserting
anything, so a raised `UsageError` leaves the state unchanged. -/
def afterMut (g : GGraph) (m : Mutation) : GGraph :=
  match applyMutation m g with
  | .ok (_, g') => g'
  | .error _ => g

/-- The `ValidationResult` returned by a mutation (`none` when the call
raised instead of returning). -/
def mutResult (g : GGraph) (m : Mutation) : Option ValidationResult :=
  match applyMutation m g with
  | .ok (r, _) => some r
  | .error _ => none

/-! ## Specification-side predicates -/

/-- Membership of a (source.type, target.type) pair in the compatibility
table for a label. -/
def compatiblePair (label : EdgeLabel) (s t : NodeType) : Bool :=
  (EventStormingAPI.validCombinations label).any fun c => c.1 == s && c.2 == t

/-- Invariant 4 of the data model: every stored edge joins existing nodes
whose types form a permitted pair for the edge label. -/
def edgesCompatibleB (g : GGraph) : Bool :=
  g.edges.all fun q =>
    match g.attrs q.2.source, g.attrs q.2.target with
    | some s, some t => compatiblePair q.2.label s.type t.type
    | _, _ => false

/-- Every stored node record carries the id under which it is keyed.  This
holds for every state the adapter builds, unless `updateNode` was used to
overwrite the `id` attribute. -/
def NodeIdsMatch (g : GGraph) : Prop := ∀ p ∈ g.nodes, p.2.id = p.1

/-- Every stored edge joins existing nodes. -/
def EdgeEndpointsExist (g : GGraph) : Prop :=
  ∀ q ∈ g.edges, g.hasNodeKey q.2.source = true ∧ g.hasNodeKey q.2.target = true

/-- Well-formedness of an adapter state: distinct node keys matching the
stored ids, edge keys derived from the stored triples, edges joining
existing nodes, distinct edge keys, and—as graphology enforces for a
non-multi graph—at most one edge per ordered endpoint pair. -/
def WFGraph (g : GGraph) : Prop :=
  (g.nodes.map Prod.fst).Nodup ∧
  NodeIdsMatch g ∧
  (∀ q ∈ g.edges, q.1 = edgeKeyOf q.2) ∧
  EdgeEndpointsExist g ∧
  (g.edges.map Prod.fst).Nodup ∧
  g.edges.Pairwise fun a b => ¬(a.2.source = b.2.source ∧ a.2.target = b.2.target)

/-- One traversal step: `b` is an out-neighbour of `a`. -/
def StepTo (g : GGraph) (a b : String) : Prop := b ∈ g.outNeighborKeys a

/-- Forward reachability (zero or more steps). -/
def Reach (g : GGraph) : String → String → Prop := Relation.ReflTransGen (StepTo g)

/-- Guard for the edge-compatibility invariant: an `updateNode` mutation may
not change the stored node type (other mutations are unrestricted). -/
def TypePreserving (g : GGraph) : Mutation → Prop
  | .updateNode id updates =>
    updates.type = none ∨
      ∃ cur, EventStormingAPI.getNode g id = some cur ∧ updates.type = some cur.type
  | _ => True

/-! ## Concrete inputs used by the scenarios, witnesses and counterexamples -/

def mkNode (id label : String) (t : NodeType) : EventStormingNode :=
  { id := id, label := label, type := t }

def nActorA : EventStormingNode := mkNode "a" "Alice" .actor

def nCommandC : EventStormingNode := mkNode "c" "DoThing" .command

def eAC : EventStormingEdge := { source := "a", target := "c", label := .issues }

/-- Actor `a` issuing command `c`, built through the public API. -/
def gAC : GGraph :=
  afterMut (afterMut (afterMut {} (.addNode nActorA)) (.addNode nCommandC)) (.addEdge eAC)

def updToEvent : NodeUpdates := { type := some .event }

def updIdZ : NodeUpdates := { id := some "z" }

/-- The state reached from `gAC` by `updateNode('a', { id: 'z' })`: the
stored attribute id is `z` while the graph key remains `a`. -/
def gBadId : GGraph := afterMut gAC (.updateNode "a" updIdZ)

def nCmdA : EventStormingNode := mkNode "a" "A" .command

def nAggBonC : EventStormingNode := mkNode "b-on-c" "B" .aggregate

def nCmdAonB : EventStormingNode := mkNode "a-on-b" "AB" .command

def nAggC : EventStormingNode := mkNode "c" "C" .aggregate

def eFirst : EventStormingEdge := { source := "a", target := "b-on-c", label := .onAgg }

def eSecond : EventStormingEdge := { source := "a-on-b", target := "c", label := .onAgg }

/-- Four nodes and the edge `a --on--> b-on-c`, whose key string
`a-on-b-on-c` collides with the key of the distinct triple
`a-on-b --on--> c`. -/
def gCollide : GGraph :=
  afterMut
    (afterMut
      (afterMut (afterMut (afterMut {} (.addNode nCmdA)) (.addNode nAggBonC))
        (.addNode nCmdAonB))
      (.addNode nAggC))
    (.addEdge eFirst)

def nBoundaryB1 : EventStormingNode := mkNode "b1" "Phase 1" .boundary

def eChain12 : EventStormingEdge := { source := "n1", target := "n2", label := .thenEvt }

def eChain23 : EventStormingEdge := { source := "n2", target := "n3", label := .thenPolicy }

def eChain14 : EventStormingEdge := { source := "n1", target := "n4", label := .thenEvt }

/-- Scenario 5 graph: `n1 -> n2 -> n3`, `n1 -> n4`. -/
def gChain : GGraph :=
  { nodes := [("n1", mkNode "n1" "N1" .command), ("n2", mkNode "n2" "N2" .event),
      ("n3", mkNode "n3" "N3" .command), ("n4", mkNode "n4" "N4" .event)]
    edges := [(edgeKeyOf eChain12, eChain12), (edgeKeyOf eChain23, eChain23),
      (edgeKeyOf eChain14, eChain14)] }

def eCyc12 : EventStormingEdge := { source := "n1", target := "n2", label := .thenEvt }

def eCyc21 : EventStormingEdge := { source := "n2", target := "n1", label := .thenPolicy }

/-- A two-node cycle `n1 -> n2 -> n1`. -/
def gCycle : GGraph :=
  { nodes := [("n1", mkNode "n1" "N1" .command), ("n2", mkNode "n2" "N2" .event)]
    edges := [(edgeKeyOf eCyc12, eCyc12), (edgeKeyOf eCyc21, eCyc21)] }

def nActorA1 : EventStormingNode := mkNode "a1" "User" .actor

def nCommandC1 : EventStormingNode := mkNode "c1" "PlaceOrder" .command

def nEventE1 : EventStormingNode := mkNode "e1" "OrderPlaced" .event

def eA1C1 : EventStormingEdge := { source := "a1", target := "c1", label := .issues }

def eC1E1 : EventStormingEdge := { source := "c1", target := "e1", label := .thenEvt }

/-- Scenario 1, first stage: actor `a1`, command `c1`, edge
`a1 --issues--> c1`. -/
def gScen1a : GGraph :=
  afterMut (afterMut (afterMut {} (.addNode nActorA1)) (.addNode nCommandC1))
    (.addEdge eA1C1)

/-- Scenario 1, second stage: event `e1` and edge `c1 --then--> e1` added. -/
def gScen1b : GGraph :=
  afterMut (afterMut gScen1a (.addNode nEventE1)) (.addEdge eC1E1)

/-- A snapshot with a duplicated node id. -/
def dupNodesData : EventStormingGraph :=
  { nodes := [mkNode "x" "X" .actor, mkNode "x" "X again" .actor], edges := [] }

def eGhost : EventStormingEdge := { source := "a1", target := "ghost", label := .thenEvt }

/-- A snapshot holding a dangling edge and a duplicated (source, label,
target) triple alongside a well-formed node/edge set. -/
def messySnapshot : EventStormingGraph :=
  { nodes := [nActorA1, nCommandC1]
    edges := [eA1C1, eGhost, eA1C1] }


/-! ## General lemmas about the list-based store -/

@[simp]
theorem lookupKey_nil {β : Type} {k : String} : lookupKey ([] : List (String × β)) k = none := rfl

theorem lookupKey_cons {β : Type} {p : String × β} {t : List (String × β)} {k : String} :
    lookupKey (p :: t) k = if p.1 == k then some p.2 else lookupKey t k := rfl

theorem lookupKey_append_left {β : Type} {l l' : List (String × β)} {k : String} {v : β}
    (h : lookupKey l k = some v) : lookupKey (l ++ l') k = some v := by
  induction l with
  | nil => simp [lookupKey] at h
  | cons p t ih =>
    rw [List.cons_append, lookupKey_cons] at *
    by_cases hk : p.1 = k
    · simpa [hk] using h
    · have hb : (p.1 == k) = false := by simp [hk]
      rw [hb] at h ⊢
      simp only [if_false, Bool.false_eq_true]
      exact ih h

theorem lookupKey_append_none {β : Type} {l l' : List (String × β)} {k : String}
    (h : lookupKey l k = none) : lookupKey (l ++ l') k = lookupKey l' k := by
  induction l with
  | nil => rw [List.nil_append]
  | cons p t ih =>
    rw [lookupKey_cons] at h
    by_cases hk : p.1 = k
    · simp [hk] at h
    · have hb : (p.1 == k) = false := by simp [hk]
      rw [hb] at h
      simp only [Bool.false_eq_true, if_false] at h
      rw [List.cons_append, lookupKey_cons, hb]
      simp only [Bool.false_eq_true, if_false]
      exact ih h

theorem lookupKey_eq_none_iff {β : Type} {l : List (String × β)} {k : String} :
    lookupKey l k = none ↔ ∀ p ∈ l, p.1 ≠ k := by
  induction l with
  | nil => simp
  | cons p t ih =>
    rw [lookupKey_cons]
    by_cases hk : p.1 = k
    · simp [hk]
    · have hb : (p.1 == k) = false := by simp [hk]
      rw [hb]
      simp only [Bool.false_eq_true, if_false]
      rw [ih]
      simp only [List.mem_cons]
      constructor
      · rintro h q (rfl | hq)
        · exact hk
        · exact h q hq
      · intro h q hq
        exact h q (Or.inr hq)

theorem mem_of_lookupKey {β : Type} {l : List (String × β)} {k : String} {v : β}
    (h : lookupKey l k = some v) : (k, v) ∈ l := by
  induction l with
  | nil => simp [lookupKey] at h
  | cons p t ih =>
    rw [lookupKey_cons] at h
    by_cases hk : p.1 = k
    · have hb : (p.1 == k) = true := by simp [hk]
      rw [hb] at h
      simp only [if_true] at h
      cases h
      exact List.mem_cons.mpr (Or.inl (by cases p; simp_all))
    · have hb : (p.1 == k) = false := by simp [hk]
      rw [hb] at h
      simp only [Bool.false_eq_true, if_false] at h
      exact List.mem_cons.mpr (Or.inr (ih h))

theorem lookupKey_isSome_of_mem {β : Type} {l : List (String × β)} {p : String × β}
    (h : p ∈ l) : (lookupKey l p.1).isSome = true := by
  induction l with
  | nil => simp at h
  | cons q t ih =>
    rw [lookupKey_cons]
    by_cases hk : q.1 = p.1
    · simp [hk]
    · have hb : (q.1 == p.1) = false := by simp [hk]
      rw [hb]
      simp only [Bool.false_eq_true, if_false]
      rcases List.mem_cons.mp h with rfl | hq
      · simp at hk
      · exact ih hq

theorem lookupKey_filter_ne {β : Type} {l : List (String × β)} {k id : String}
    (h : k ≠ id) : lookupKey (l.filter fun p => p.1 != id) k = lookupKey l k := by
  induction l with
  | nil => simp
  | cons p t ih =>
    rw [List.filter_cons]
    by_cases hp : p.1 = id
    · have hb : (p.1 != id) = false := by simp [hp]
      rw [hb]
      simp only [Bool.false_eq_true, if_false]
      rw [ih, lookupKey_cons]
      have : (p.1 == k) = false := by simp [hp]; exact fun he => h he.symm
      rw [this]
      simp
    · have hb : (p.1 != id) = true := by simp [hp]
      rw [hb]
      simp only [if_true]
      rw [lookupKey_cons, lookupKey_cons]
      by_cases hk : p.1 = k
      · simp [hk]
      · have hbk : (p.1 == k) = false := by simp [hk]
        rw [hbk]
        simp only [Bool.false_eq_true, if_false]
        exact ih

theorem lookupKey_filter_self {β : Type} {l : List (String × β)} {id : String} :
    lookupKey (l.filter fun p => p.1 != id) id = none := by
  rw [lookupKey_eq_none_iff]
  intro p hp
  have := (List.mem_filter.mp hp).2
  simpa using this

theorem lookupKey_map_replace {β : Type} {l : List (String × β)} {id k : String} {c : β} :
    lookupKey (l.map fun p => if p.1 == id then (p.1, c) else p) k =
      if k = id then (lookupKey l k).map fun _ => c else lookupKey l k := by
  induction l with
  | nil => simp
  | cons p t ih =>
    simp only [List.map_cons, lookupKey_cons, beq_iff_eq] at ih ⊢
    by_cases hp : p.1 = id
    · by_cases hk : p.1 = k
      · have hkid : k = id := hk ▸ hp
        simp [hp, hk, hkid]
      · have hkid : ¬ k = id := fun he => hk (hp.trans he.symm)
        have hkid2 : ¬ id = k := fun he => hkid he.symm
        simp [hp, hk, hkid, hkid2, ih]
    · by_cases hk : p.1 = k
      · have hkid : ¬ k = id := fun he => hp (hk.trans he)
        simp [hp, hk, hkid]
      · simp [hp, hk, ih]

theorem mem_dedupF {l : List String} {x : String} : x ∈ dedupF l ↔ x ∈ l := by
  induction l with
  | nil => simp [dedupF]
  | cons y t ih =>
    simp only [dedupF, List.mem_cons]
    constructor
    · rintro (h | h)
      · exact Or.inl h
      · exact Or.inr (ih.mp (List.mem_filter.mp h).1)
    · rintro (h | h)
      · exact Or.inl h
      · by_cases hx : x = y
        · exact Or.inl hx
        · refine Or.inr (List.mem_filter.mpr ⟨ih.mpr h, ?_⟩)
          simp [hx]

theorem nodup_dedupF (l : List String) : (dedupF l).Nodup := by
  induction l with
  | nil => simp [dedupF]
  | cons y t ih =>
    simp only [dedupF]
    refine List.Nodup.cons ?_ (List.Nodup.filter _ ih)
    intro hy
    have := (List.mem_filter.mp hy).2
    simp at this

theorem length_dedupF_le (l : List String) : (dedupF l).length ≤ l.length := by
  induction l with
  | nil => simp [dedupF]
  | cons y t ih =>
    simp only [dedupF, List.length_cons]
    have := List.length_filter_le (fun z => z != y) (dedupF t)
    omega

theorem mem_addSet {l : List String} {x y : String} :
    x ∈ GraphologyAdapter.addSet l y ↔ x ∈ l ∨ x = y := by
  unfold GraphologyAdapter.addSet
  cases hy : l.contains y with
  | true =>
    simp only [if_true]
    constructor
    · exact Or.inl
    · rintro (hx | rfl)
      · exact hx
      · simpa [List.elem_eq_mem] using hy
  | false =>
    simp only [Bool.false_eq_true, if_false]
    simp

theorem nodup_addSet {l : List String} {y : String} (h : l.Nodup) :
    (GraphologyAdapter.addSet l y).Nodup := by
  unfold GraphologyAdapter.addSet
  cases hy : l.contains y with
  | true => simpa using h
  | false =>
    simp only [Bool.false_eq_true, if_false]
    have : y ∉ l := by simpa [List.elem_eq_mem] using hy
    simp [List.nodup_append, h, this]

theorem length_filter_mono {α : Type} {l : List α} {p q : α → Bool}
    (h : ∀ x ∈ l, p x = true → q x = true) :
    (l.filter p).length ≤ (l.filter q).length := by
  induction l with
  | nil => simp
  | cons a t ih =>
    have ht : ∀ x ∈ t, p x = true → q x = true := fun x hx => h x (List.mem_cons_of_mem _ hx)
    rw [List.filter_cons, List.filter_cons]
    cases hp : p a with
    | true =>
      have hq := h a (List.mem_cons_self a t) hp
      simp only [hq, if_true, List.length_cons]
      exact Nat.succ_le_succ (ih ht)
    | false =>
      cases hq : q a with
      | true =>
        simp only [Bool.false_eq_true, if_false, if_true, List.length_cons]
        exact Nat.le_succ_of_le (ih ht)
      | false =>
        simp only [Bool.false_eq_true, if_false]
        exact ih ht

theorem length_filter_visited_succ_le {U visited : List String} {c : String}
    (hc : c ∈ U) (hcv : c ∉ visited) :
    (U.filter fun x => !((visited ++ [c]).contains x)).length + 1 ≤
      (U.filter fun x => !(visited.contains x)).length := by
  induction U with
  | nil => simp at hc
  | cons u t ih =>
    rw [List.filter_cons, List.filter_cons]
    by_cases huc : u = c
    · subst huc
      have h1 : ((visited ++ [u]).contains u) = true := by
        simp [List.elem_eq_mem]
      have h2 : (visited.contains u) = false := by
        simp [List.elem_eq_mem, hcv]
      simp only [h1, h2, Bool.not_true, Bool.not_false, Bool.false_eq_true, if_false, if_true,
        List.length_cons]
      have mono : (t.filter fun x => !((visited ++ [u]).contains x)).length ≤
          (t.filter fun x => !(visited.contains x)).length := by
        refine length_filter_mono fun x _ hx => ?_
        simp only [Bool.not_eq_true', List.elem_eq_mem, decide_eq_false_iff_not,
          List.mem_append] at hx
        simp only [Bool.not_eq_true', List.elem_eq_mem, decide_eq_false_iff_not]
        exact fun hm => hx (Or.inl hm)
      omega
    · have hct : c ∈ t := by
        rcases List.mem_cons.mp hc with h | h
        · exact absurd h.symm huc
        · exact h
      have same : ((visited ++ [c]).contains u) = (visited.contains u) := by
        simp only [List.elem_eq_mem, List.mem_append, List.mem_singleton]
        have : ¬ u = c := huc
        simp [this]
      rw [same]
      cases hv : (visited.contains u) with
      | true =>
        simp only [Bool.not_true, Bool.false_eq_true, if_false]
        exact ih hct
      | false =>
        simp only [Bool.not_false, if_true, List.length_cons]
        have := ih hct
        omega

theorem any_map_fn {α β : Type} (l : List α) (f : α → β) (p : β → Bool) :
    (l.map f).any p = l.any fun a => p (f a) := by
  induction l with
  | nil => rfl
  | cons a t ih => simp [List.any_cons, ih]

theorem filterMap_ite {α β : Type} (p : α → Bool) (f : α → β) (l : List α) :
    (l.filterMap fun a => if p a then none else some (f a)) =
      (l.filter fun a => !(p a)).map f := by
  induction l with
  | nil => rfl
  | cons a t ih =>
    cases hp : p a with
    | true => simp [List.filterMap_cons, List.filter_cons, hp, ih]
    | false => simp [List.filterMap_cons, List.filter_cons, hp, ih]

/-! ## C4: node validation on addNode -/

/-- C4 (counterexample): a `boundary` node with non-empty id and label,
added to a graph that does not contain its id, is rejected by `addNode`
(`validateNode`'s `validTypes` list omits `'boundary'`), contradicting the
claim that all nine node kinds are accepted. -/
theorem C4_boundary_rejected :
    trimStr nBoundaryB1.id ≠ "" ∧ trimStr nBoundaryB1.label ≠ "" ∧
    GGraph.hasNodeKey {} nBoundaryB1.id = false ∧
    (EventStormingAPI.addNode {} nBoundaryB1).1.isValid = false ∧
    (EventStormingAPI.addNode {} nBoundaryB1).1.errors =
      ["Invalid node type \x27boundary\x27. Must be one of: actor, command, aggregate, event, viewmodel, preconditions, guards, branchinglogic"] := by
  refine ⟨by decide, by decide, by decide, by decide, by decide⟩

/-- C4 (amended): for every node whose id and label are non-empty after
trimming and whose type is one of the *eight* kinds other than `boundary`,
`addNode` on a graph not containing the id succeeds with no errors, stores
the node, and warns exactly when the id fails the kebab-case format. -/
theorem C4_addNode_valid (g : GGraph) (node : EventStormingNode)
    (hid : trimStr node.id ≠ "") (hlabel : trimStr node.label ≠ "")
    (htype : node.type ≠ NodeType.boundary)
    (hfresh : g.hasNodeKey node.id = false) :
    (EventStormingAPI.addNode g node).1.isValid = true ∧
    (EventStormingAPI.addNode g node).1.errors = [] ∧
    (EventStormingAPI.addNode g node).2 = g.insertNode node ∧
    ((EventStormingAPI.addNode g node).1.warnings = [] ↔ matchesKebab node.id = true) := by
  have hidne : node.id ≠ "" := by
    intro he
    exact hid (by rw [he]; rfl)
  have hid' : (trimStr node.id == "") = false := by simp [hid]
  have hlabel' : (trimStr node.label == "") = false := by simp [hlabel]
  have htc : EventStormingAPI.validTypes.contains node.type = true := by
    cases hnt : node.type <;> first | decide | exact absurd hnt htype
  have hval : EventStormingAPI.validateNode node =
      { isValid := true, errors := [],
        warnings := if node.id != "" && !(matchesKebab node.id) then
          ["Node ID \x27" ++ node.id ++
            "\x27 should use kebab-case format (lowercase with hyphens/underscores)"]
        else [] } := by
    unfold EventStormingAPI.validateNode
    rw [hid', hlabel', htc]
    simp
  refine ⟨?_, ?_, ?_, ?_⟩
  · simp [EventStormingAPI.addNode, hfresh, hval]
  · simp [EventStormingAPI.addNode, hfresh, hval]
  · simp [EventStormingAPI.addNode, hfresh, hval, GraphologyAdapter.addNode]
  · simp only [EventStormingAPI.addNode, hfresh, Bool.false_eq_true, if_false, hval]
    cases hm : matchesKebab node.id with
    | true => simp [hidne]
    | false => simp [hidne]

/-- C4 (witness). -/
theorem C4_addNode_valid_witness :
    trimStr (mkNode "ok" "OK" .actor).id ≠ "" ∧
    trimStr (mkNode "ok" "OK" .actor).label ≠ "" ∧
    (mkNode "ok" "OK" .actor).type ≠ NodeType.boundary ∧
    GGraph.hasNodeKey {} (mkNode "ok" "OK" .actor).id = false ∧
    ((EventStormingAPI.addNode {} (mkNode "ok" "OK" .actor)).1.isValid = true ∧
      (EventStormingAPI.addNode {} (mkNode "ok" "OK" .actor)).1.errors = [] ∧
      (EventStormingAPI.addNode {} (mkNode "ok" "OK" .actor)).2 =
        GGraph.insertNode {} (mkNode "ok" "OK" .actor) ∧
      ((EventStormingAPI.addNode {} (mkNode "ok" "OK" .actor)).1.warnings = [] ↔
        matchesKebab (mkNode "ok" "OK" .actor).id = true)) :=
  ⟨by decide, by decide, by decide, by decide,
    C4_addNode_valid {} (mkNode "ok" "OK" .actor) (by decide) (by decide) (by decide)
      (by decide)⟩

/-! ## C6: graph-level validation -/

/-- C6: `validateGraph` reports exactly one "must generate at least one
event" error per command node lacking an outgoing `then` edge, and
`isValid` is `true` (with zero errors) exactly when every command node has
such an edge — warnings do not affect `isValid`.  The conjuncts on
`gScen1a`/`gScen1b` check the claimed concrete scenario. -/
theorem C6_validateGraph_commands_must_emit (g : GGraph) :
    ((EventStormingAPI.validateGraph g).errors =
      ((EventStormingAPI.getNodesByType g .command).filter fun c =>
          !(g.edges.any fun q => q.2.source == c.id && q.2.label == EdgeLabel.thenEvt)).map
        fun c => "Command \x27" ++ c.label ++ "\x27 must generate at least one event") ∧
    ((EventStormingAPI.validateGraph g).isValid = true ↔
      ∀ c ∈ EventStormingAPI.getNodesByType g .command,
        ∃ q ∈ g.edges, q.2.source = c.id ∧ q.2.label = EdgeLabel.thenEvt) ∧
    (EventStormingAPI.validateGraph gScen1a).errors =
      ["Command \x27PlaceOrder\x27 must generate at least one event"] ∧
    (EventStormingAPI.validateGraph gScen1a).isValid = false ∧
    EventStormingAPI.validateGraph gScen1b =
      { isValid := true, errors := [], warnings := [] } := by
  have herr : (EventStormingAPI.validateGraph g).errors =
      ((EventStormingAPI.getNodesByType g .command).filter fun c =>
          !(g.edges.any fun q => q.2.source == c.id && q.2.label == EdgeLabel.thenEvt)).map
        fun c => "Command \x27" ++ c.label ++ "\x27 must generate at least one event" := by
    unfold EventStormingAPI.validateGraph
    simp only [GraphologyAdapter.filterEdges, List.filter_true, any_map_fn]
    exact filterMap_ite _ _ _
  refine ⟨herr, ?_, by decide, by decide, by decide⟩
  have hv : (EventStormingAPI.validateGraph g).isValid =
      (EventStormingAPI.validateGraph g).errors.isEmpty := by
    unfold EventStormingAPI.validateGraph
    rfl
  rw [hv, herr]
  simp only [List.isEmpty_iff, List.map_eq_nil_iff, List.filter_eq_nil_iff]
  constructor
  · intro h c hc
    have hne := h c hc
    have hany : (g.edges.any fun q =>
        q.2.source == c.id && q.2.label == EdgeLabel.thenEvt) = true := by
      by_cases hb : (g.edges.any fun q =>
          q.2.source == c.id && q.2.label == EdgeLabel.thenEvt) = true
      · exact hb
      · exact absurd (by simp [Bool.eq_false_iff.mpr hb]) hne
    rcases List.any_eq_true.mp hany with ⟨q, hq, hpq⟩
    have h1 : q.2.source = c.id := by
      have := (Bool.and_eq_true _ _).mp hpq
      simpa using this.1
    have h2 : q.2.label = EdgeLabel.thenEvt := by
      have := (Bool.and_eq_true _ _).mp hpq
      simpa using this.2
    exact ⟨q, hq, h1, h2⟩
  · intro h c hc
    rcases h c hc with ⟨q, hq, h1, h2⟩
    have hany : (g.edges.any fun q =>
        q.2.source == c.id && q.2.label == EdgeLabel.thenEvt) = true :=
      List.any_eq_true.mpr ⟨q, hq, by simp [h1, h2]⟩
    simp [hany]

/-! ## C2: removeNode frame conditions -/

/-- C2: removing an existing node succeeds, empties `getNodeEdges` for it,
leaves no edge with it as source or target, removes it from the node set,
and leaves every other node (looked up by key) and every non-incident edge
entry untouched. -/
theorem C2_removeNode_frame (g : GGraph) (n : String) (h : g.hasNodeKey n = true) :
    (EventStormingAPI.removeNode g n).1 =
      { isValid := true, errors := [], warnings := [] } ∧
    EventStormingAPI.getNodeEdges (EventStormingAPI.removeNode g n).2 n = [] ∧
    (∀ q ∈ (EventStormingAPI.removeNode g n).2.edges, q.2.source ≠ n ∧ q.2.target ≠ n) ∧
    (EventStormingAPI.removeNode g n).2.hasNodeKey n = false ∧
    (∀ k, k ≠ n →
      lookupKey (EventStormingAPI.removeNode g n).2.nodes k = lookupKey g.nodes k) ∧
    (∀ p ∈ (EventStormingAPI.removeNode g n).2.nodes, p ∈ g.nodes) ∧
    (∀ q ∈ g.edges, q.2.source ≠ n → q.2.target ≠ n →
      q ∈ (EventStormingAPI.removeNode g n).2.edges) ∧
    (∀ q ∈ (EventStormingAPI.removeNode g n).2.edges, q ∈ g.edges) := by
  have hres : EventStormingAPI.removeNode g n =
      ({ isValid := true, errors := [], warnings := [] }, g.dropNode n) := by
    unfold EventStormingAPI.removeNode GraphologyAdapter.removeNode
    rw [h]
    simp
  rw [hres]
  have hkeygone : (g.dropNode n).hasNodeKey n = false := by
    unfold GGraph.dropNode GGraph.hasNodeKey
    simp [lookupKey_filter_self]
  refine ⟨rfl, ?_, ?_, hkeygone, ?_, ?_, ?_, ?_⟩
  · unfold EventStormingAPI.getNodeEdges GraphologyAdapter.getNodeEdges
    rw [hkeygone]
    simp
  · intro q hq
    have := (List.mem_filter.mp hq).2
    constructor
    · intro he
      simp [he] at this
    · intro he
      simp [he] at this
  · intro k hk
    exact lookupKey_filter_ne hk
  · intro p hp
    exact List.mem_of_mem_filter hp
  · intro q hq h1 h2
    refine List.mem_filter.mpr ⟨hq, ?_⟩
    simp [h1, h2]
  · intro q hq
    exact List.mem_of_mem_filter hq

/-- C2 (witness). -/
theorem C2_removeNode_frame_witness :
    gAC.hasNodeKey "a" = true ∧
    ((EventStormingAPI.removeNode gAC "a").1 =
      { isValid := true, errors := [], warnings := [] } ∧
    EventStormingAPI.getNodeEdges (EventStormingAPI.removeNode gAC "a").2 "a" = [] ∧
    (∀ q ∈ (EventStormingAPI.removeNode gAC "a").2.edges,
      q.2.source ≠ "a" ∧ q.2.target ≠ "a") ∧
    (EventStormingAPI.removeNode gAC "a").2.hasNodeKey "a" = false ∧
    (∀ k, k ≠ "a" →
      lookupKey (EventStormingAPI.removeNode gAC "a").2.nodes k = lookupKey gAC.nodes k) ∧
    (∀ p ∈ (EventStormingAPI.removeNode gAC "a").2.nodes, p ∈ gAC.nodes) ∧
    (∀ q ∈ gAC.edges, q.2.source ≠ "a" → q.2.target ≠ "a" →
      q ∈ (EventStormingAPI.removeNode gAC "a").2.edges) ∧
    (∀ q ∈ (EventStormingAPI.removeNode gAC "a").2.edges, q ∈ gAC.edges)) :=
  ⟨by decide, C2_removeNode_frame gAC "a" (by decide)⟩

/-! ## C9: failed mutations are no-ops -/

theorem addNode_state_of_invalid {g : GGraph} {node : EventStormingNode}
    (h : (EventStormingAPI.addNode g node).1.isValid = false) :
    (EventStormingAPI.addNode g node).2 = g := by
  unfold EventStormingAPI.addNode at *
  by_cases hk : g.hasNodeKey node.id
  · simp [hk]
  · have hk' : g.hasNodeKey node.id = false := by simpa using hk
    by_cases hv : (EventStormingAPI.validateNode node).isValid
    · simp [hk', hv] at h
    · have hv' : (EventStormingAPI.validateNode node).isValid = false := by simpa using hv
      simp [hk', hv']

theorem updateNode_state_of_invalid {g : GGraph} {id : String} {u : NodeUpdates}
    (h : (EventStormingAPI.updateNode g id u).1.isValid = false) :
    (EventStormingAPI.updateNode g id u).2 = g := by
  unfold EventStormingAPI.updateNode at *
  cases hc : GraphologyAdapter.getNode g id with
  | none => simp [hc]
  | some cur =>
    rw [hc] at h
    dsimp only at h ⊢
    by_cases hv : (EventStormingAPI.validateNode (mergeNode cur u)).isValid
    · simp [hv] at h
    · have hv' : (EventStormingAPI.validateNode (mergeNode cur u)).isValid = false := by
        simpa using hv
      simp [hv']

theorem removeNode_state_of_invalid {g : GGraph} {id : String}
    (h : (EventStormingAPI.removeNode g id).1.isValid = false) :
    (EventStormingAPI.removeNode g id).2 = g := by
  unfold EventStormingAPI.removeNode at *
  by_cases hk : g.hasNodeKey id
  · rw [hk] at h
    simp at h
  · have hk' : g.hasNodeKey id = false := by simpa using hk
    rw [hk']
    simp

theorem addEdge_state_of_invalid {g : GGraph} {e : EventStormingEdge}
    {r : ValidationResult} {g' : GGraph}
    (h : EventStormingAPI.addEdge g e = .ok (r, g')) (hr : r.isValid = false) :
    g' = g := by
  unfold EventStormingAPI.addEdge at h
  cases hs : GraphologyAdapter.getNode g e.source with
  | none =>
    rw [hs] at h
    dsimp only at h
    simp only [Except.ok.injEq, Prod.mk.injEq] at h
    exact h.2.symm
  | some sourceNode =>
    rw [hs] at h
    dsimp only at h
    cases ht : GraphologyAdapter.getNode g e.target with
    | none =>
      rw [ht] at h
      dsimp only at h
      simp only [Except.ok.injEq, Prod.mk.injEq] at h
      exact h.2.symm
    | some targetNode =>
      rw [ht] at h
      dsimp only at h
      by_cases hv : (EventStormingAPI.validateEdge e sourceNode targetNode).isValid
      · rw [if_neg (by simp [hv])] at h
        cases hadd : GraphologyAdapter.addEdge g e with
        | error m => rw [hadd] at h; simp at h
        | ok p =>
          rcases p with ⟨added, g2⟩
          rw [hadd] at h
          dsimp only at h
          cases added with
          | false =>
            simp only [Bool.not_false, if_true, Except.ok.injEq, Prod.mk.injEq] at h
            exact h.2.symm
          | true =>
            simp only [Bool.not_true, Bool.false_eq_true, if_false, Except.ok.injEq,
              Prod.mk.injEq] at h
            rw [← h.1] at hr
            simp at hr
      · have hv' : (EventStormingAPI.validateEdge e sourceNode targetNode).isValid = false := by
          simpa using hv
        rw [if_pos (by simp [hv'])] at h
        simp only [Except.ok.injEq, Prod.mk.injEq] at h
        exact h.2.symm

theorem removeEdge_state_of_invalid {g : GGraph} {s t : String} {lab : EdgeLabel}
    (h : (EventStormingAPI.removeEdge g s t lab).1.isValid = false) :
    (EventStormingAPI.removeEdge g s t lab).2 = g := by
  unfold EventStormingAPI.removeEdge at *
  unfold GraphologyAdapter.removeEdge at *
  by_cases hk : g.hasEdgeKey (mkEdgeKey s lab t)
  · rw [if_pos hk] at h ⊢
    simp at h
  · rw [if_neg hk] at h ⊢
    simp

/-- C9: whenever a mutation returns a `ValidationResult` with
`isValid = false`, the graph state is exactly what it was before the call:
failed mutations are atomic no-ops. -/
theorem C9_failed_mutation_is_noop (m : Mutation) (g : GGraph) (r : ValidationResult)
    (g' : GGraph) (h : applyMutation m g = .ok (r, g')) (hr : r.isValid = false) :
    g' = g := by
  cases m with
  | addNode node =>
    simp only [applyMutation, Except.ok.injEq] at h
    have h2 : (EventStormingAPI.addNode g node).2 = g' := by rw [h]
    have h1 : (EventStormingAPI.addNode g node).1 = r := by rw [h]
    rw [← h2]
    exact addNode_state_of_invalid (by rw [h1]; exact hr)
  | updateNode id u =>
    simp only [applyMutation, Except.ok.injEq] at h
    have h2 : (EventStormingAPI.updateNode g id u).2 = g' := by rw [h]
    have h1 : (EventStormingAPI.updateNode g id u).1 = r := by rw [h]
    rw [← h2]
    exact updateNode_state_of_invalid (by rw [h1]; exact hr)
  | removeNode id =>
    simp only [applyMutation, Except.ok.injEq] at h
    have h2 : (EventStormingAPI.removeNode g id).2 = g' := by rw [h]
    have h1 : (EventStormingAPI.removeNode g id).1 = r := by rw [h]
    rw [← h2]
    exact removeNode_state_of_invalid (by rw [h1]; exact hr)
  | addEdge e =>
    exact addEdge_state_of_invalid h hr
  | removeEdge s t lab =>
    simp only [applyMutation, Except.ok.injEq] at h
    have h2 : (EventStormingAPI.removeEdge g s t lab).2 = g' := by rw [h]
    have h1 : (EventStormingAPI.removeEdge g s t lab).1 = r := by rw [h]
    rw [← h2]
    exact removeEdge_state_of_invalid (by rw [h1]; exact hr)

/-- C9 (witness): removing a missing node fails and leaves the empty graph
unchanged. -/
theorem C9_failed_mutation_is_noop_witness :
    applyMutation (.removeNode "zzz") {} =
      .ok ({ isValid := false, errors := ["Node with ID \x27zzz\x27 not found"],
             warnings := [] }, {}) ∧
    (({ isValid := false, errors := ["Node with ID \x27zzz\x27 not found"],
        warnings := [] } : ValidationResult).isValid = false) ∧
    ({} : GGraph) = {} :=
  ⟨by decide, by decide,
    C9_failed_mutation_is_noop (.removeNode "zzz") {}
      { isValid := false, errors := ["Node with ID \x27zzz\x27 not found"], warnings := [] }
      {} (by decide) (by decide)⟩

/-! ## C3: addEdge duplicate detection -/

/-- C3 (counterexample): the edge `a-on-b --on--> c` has both endpoints
present with a permitted type pair and its exact triple is absent from the
graph, yet `addEdge` reports "Edge already exists" with the graph unchanged,
because its key string `a-on-b-on-c` collides with the key of the distinct
stored triple `a --on--> b-on-c`.  Two distinct triples therefore *can*
block each other. -/
theorem C3_distinct_triples_collide :
    EventStormingAPI.getNode gCollide eSecond.source = some nCmdAonB ∧
    EventStormingAPI.getNode gCollide eSecond.target = some nAggC ∧
    compatiblePair eSecond.label nCmdAonB.type nAggC.type = true ∧
    (∀ q ∈ gCollide.edges,
      ¬(q.2.source = eSecond.source ∧ q.2.label = eSecond.label ∧
        q.2.target = eSecond.target)) ∧
    EventStormingAPI.addEdge gCollide eSecond =
      .ok ({ isValid := false,
             errors := ["Edge already exists: a-on-b --on--> c"] }, gCollide) := by
  refine ⟨by decide, by decide, by decide, by decide, by decide⟩

/-- C3 (amended): for an edge whose endpoints exist and whose type pair is
permitted for its label, `addEdge` returns the "already exists" failure with
the graph unchanged iff the *key string* `source-label-target` is already
taken (which coincides with the same-triple condition when node ids contain
no hyphen, but distinct triples with colliding keys block each other);
when the key is free and no stored edge joins the same ordered endpoint
pair, the edge is appended and the call returns `isValid = true`. -/
theorem C3_addEdge_key_unique (g : GGraph) (e : EventStormingEdge)
    (s t : EventStormingNode)
    (hs : EventStormingAPI.getNode g e.source = some s)
    (ht : EventStormingAPI.getNode g e.target = some t)
    (hcompat : compatiblePair e.label s.type t.type = true) :
    (g.hasEdgeKey (edgeKeyOf e) = true →
      EventStormingAPI.addEdge g e =
        .ok ({ isValid := false,
               errors := ["Edge already exists: " ++ e.source ++ " --" ++ e.label.str ++
                 "--> " ++ e.target] }, g)) ∧
    (g.hasEdgeKey (edgeKeyOf e) = false → g.hasPair e.source e.target = false →
      EventStormingAPI.addEdge g e =
        .ok ({ isValid := true, errors := [], warnings := [] },
          g.insertEdge (edgeKeyOf e) e)) := by
  have hs' : GraphologyAdapter.getNode g e.source = some s := hs
  have ht' : GraphologyAdapter.getNode g e.target = some t := ht
  have hany : ((EventStormingAPI.validCombinations e.label).any fun combo =>
      combo.1 == s.type && combo.2 == t.type) = true := hcompat
  have hval : EventStormingAPI.validateEdge e s t =
      { isValid := true, errors := [], warnings := [] } := by
    unfold EventStormingAPI.validateEdge
    simp [hany]
  have hsrc : g.hasNodeKey e.source = true := by
    unfold EventStormingAPI.getNode GraphologyAdapter.getNode GGraph.attrs at hs
    unfold GGraph.hasNodeKey
    rw [hs]
    rfl
  have htgt : g.hasNodeKey e.target = true := by
    unfold EventStormingAPI.getNode GraphologyAdapter.getNode GGraph.attrs at ht
    unfold GGraph.hasNodeKey
    rw [ht]
    rfl
  constructor
  · intro hkey
    unfold EventStormingAPI.addEdge
    rw [hs', ht']
    dsimp only
    rw [hval]
    simp only [Bool.not_true, Bool.false_eq_true, if_false]
    unfold GraphologyAdapter.addEdge
    simp [hkey]
  · intro hkey hpair
    unfold EventStormingAPI.addEdge
    rw [hs', ht']
    dsimp only
    rw [hval]
    simp only [Bool.not_true, Bool.false_eq_true, if_false]
    unfold GraphologyAdapter.addEdge
    simp [hkey, hsrc, htgt, hpair]

/-- C3 (witness): a fresh `then` edge from `c1` to `e1` in `gScen1a` is
accepted, and after it is stored a second identical call reports the
duplicate. -/
theorem C3_addEdge_key_unique_witness :
    EventStormingAPI.getNode gScen1a "c1" = some nCommandC1 ∧
    EventStormingAPI.getNode gScen1a "e1" = none ∧
    EventStormingAPI.getNode gScen1b "c1" = some nCommandC1 ∧
    EventStormingAPI.getNode gScen1b "e1" = some nEventE1 ∧
    compatiblePair EdgeLabel.thenEvt nCommandC1.type nEventE1.type = true ∧
    gScen1b.hasEdgeKey (edgeKeyOf eC1E1) = true ∧
    (gScen1b.hasEdgeKey (edgeKeyOf eC1E1) = true →
      EventStormingAPI.addEdge gScen1b eC1E1 =
        .ok ({ isValid := false,
               errors := ["Edge already exists: c1 --then--> e1"] }, gScen1b)) ∧
    (gScen1b.hasEdgeKey (edgeKeyOf eC1E1) = false →
      gScen1b.hasPair eC1E1.source eC1E1.target = false →
      EventStormingAPI.addEdge gScen1b eC1E1 =
        .ok ({ isValid := true, errors := [], warnings := [] },
          gScen1b.insertEdge (edgeKeyOf eC1E1) eC1E1)) :=
  ⟨by decide, by decide, by decide, by decide, by decide, by decide,
    (C3_addEdge_key_unique gScen1b eC1E1 nCommandC1 nEventE1 (by decide) (by decide)
      (by decide)).1,
    (C3_addEdge_key_unique gScen1b eC1E1 nCommandC1 nEventE1 (by decide) (by decide)
      (by decide)).2⟩

/-! ## C1: edge-compatibility invariant under mutations -/

theorem edgesCompatibleB_iff {g : GGraph} :
    edgesCompatibleB g = true ↔
      ∀ q ∈ g.edges, ∃ s t, g.attrs q.2.source = some s ∧ g.attrs q.2.target = some t ∧
        compatiblePair q.2.label s.type t.type = true := by
  unfold edgesCompatibleB
  rw [List.all_eq_true]
  constructor
  · intro h q hq
    have hb := h q hq
    cases hs : g.attrs q.2.source with
    | none => rw [hs] at hb; simp at hb
    | some s =>
      cases ht : g.attrs q.2.target with
      | none => rw [hs, ht] at hb; simp at hb
      | some t =>
        rw [hs, ht] at hb
        exact ⟨s, t, rfl, rfl, hb⟩
  · intro h q hq
    rcases h q hq with ⟨s, t, hs, ht, hc⟩
    rw [hs, ht]
    exact hc

theorem validateEdge_isValid_iff {e : EventStormingEdge} {s t : EventStormingNode} :
    (EventStormingAPI.validateEdge e s t).isValid = true ↔
      compatiblePair e.label s.type t.type = true := by
  have : compatiblePair e.label s.type t.type =
      ((EventStormingAPI.validCombinations e.label).any fun combo =>
        combo.1 == s.type && combo.2 == t.type) := rfl
  rw [this]
  unfold EventStormingAPI.validateEdge
  cases hc : ((EventStormingAPI.validCombinations e.label).any fun combo =>
      combo.1 == s.type && combo.2 == t.type) with
  | true => simp [hc]
  | false => simp [hc]

theorem addNode_success_state {g : GGraph} {n : EventStormingNode}
    (h : (EventStormingAPI.addNode g n).1.isValid = true) :
    (EventStormingAPI.addNode g n).2 = g.insertNode n ∧ g.hasNodeKey n.id = false := by
  unfold EventStormingAPI.addNode at *
  by_cases hk : g.hasNodeKey n.id
  · rw [if_pos hk] at h
    simp at h
  · have hk' : g.hasNodeKey n.id = false := by simpa using hk
    rw [if_neg (by simp [hk'])] at h ⊢
    by_cases hv : (EventStormingAPI.validateNode n).isValid
    · rw [if_neg (by simp [hv])] at h ⊢
      exact ⟨by simp [GraphologyAdapter.addNode, hk'], hk'⟩
    · have hv' : (EventStormingAPI.validateNode n).isValid = false := by simpa using hv
      rw [if_pos (by simp [hv'])] at h
      rw [hv'] at h
      simp at h

theorem updateNode_success_state {g : GGraph} {id : String} {u : NodeUpdates}
    (h : (EventStormingAPI.updateNode g id u).1.isValid = true) :
    ∃ cur, GraphologyAdapter.getNode g id = some cur ∧
      (EventStormingAPI.validateNode (mergeNode cur u)).isValid = true ∧
      (EventStormingAPI.updateNode g id u).2 =
        { g with nodes := g.nodes.map fun p =>
            if p.1 == id then (p.1, mergeNode cur u) else p } := by
  unfold EventStormingAPI.updateNode at *
  cases hc : GraphologyAdapter.getNode g id with
  | none => rw [hc] at h; simp at h
  | some cur =>
    rw [hc] at h
    dsimp only at h ⊢
    by_cases hv : (EventStormingAPI.validateNode (mergeNode cur u)).isValid
    · refine ⟨cur, rfl, hv, ?_⟩
      rw [if_neg (by simp [hv])]
      unfold GraphologyAdapter.updateNode GGraph.attrs at *
      cases hl : lookupKey g.nodes id with
      | none =>
        exact absurd hl (by simp [hc, GraphologyAdapter.getNode, GGraph.attrs] at *; simp [hc])
      | some cur2 =>
        have : cur2 = cur := by
          have : lookupKey g.nodes id = some cur := hc
          rw [hl] at this
          exact (Option.some.injEq _ _ ▸ this : cur2 = cur)
        subst this
        rfl
    · have hv' : (EventStormingAPI.validateNode (mergeNode cur u)).isValid = false := by
        simpa using hv
      rw [if_pos (by simp [hv'])] at h
      rw [hv'] at h
      simp at h

theorem removeNode_success_state {g : GGraph} {id : String}
    (h : (EventStormingAPI.removeNode g id).1.isValid = true) :
    (EventStormingAPI.removeNode g id).2 = g.dropNode id := by
  unfold EventStormingAPI.removeNode at *
  by_cases hk : g.hasNodeKey id
  · rw [if_neg (by simp [hk])] at h ⊢
    simp [GraphologyAdapter.removeNode, hk]
  · have hk' : g.hasNodeKey id = false := by simpa using hk
    rw [if_pos (by simp [hk'])] at h
    simp at h

theorem addEdge_success_state {g : GGraph} {e : EventStormingEdge}
    {r : ValidationResult} {g' : GGraph}
    (h : EventStormingAPI.addEdge g e = .ok (r, g')) (hr : r.isValid = true) :
    ∃ s t, GraphologyAdapter.getNode g e.source = some s ∧
      GraphologyAdapter.getNode g e.target = some t ∧
      compatiblePair e.label s.type t.type = true ∧
      g' = g.insertEdge (edgeKeyOf e) e := by
  unfold EventStormingAPI.addEdge at h
  cases hs : GraphologyAdapter.getNode g e.source with
  | none =>
    rw [hs] at h
    dsimp only at h
    simp only [Except.ok.injEq, Prod.mk.injEq] at h
    rw [← h.1] at hr
    simp at hr
  | some sourceNode =>
    rw [hs] at h
    dsimp only at h
    cases ht : GraphologyAdapter.getNode g e.target with
    | none =>
      rw [ht] at h
      dsimp only at h
      simp only [Except.ok.injEq, Prod.mk.injEq] at h
      rw [← h.1] at hr
      simp at hr
    | some targetNode =>
      rw [ht] at h
      dsimp only at h
      by_cases hv : (EventStormingAPI.validateEdge e sourceNode targetNode).isValid
      · rw [if_neg (by simp [hv])] at h
        refine ⟨sourceNode, targetNode, rfl, rfl, validateEdge_isValid_iff.mp hv, ?_⟩
        unfold GraphologyAdapter.addEdge at h
        by_cases hkey : g.hasEdgeKey (edgeKeyOf e)
        · rw [if_pos (show g.hasEdgeKey (edgeKeyOf e) = true from hkey)] at h
          dsimp only at h
          simp only [Bool.not_false, if_true, Except.ok.injEq, Prod.mk.injEq] at h
          rw [← h.1] at hr
          simp at hr
        · rw [if_neg (by simpa using hkey)] at h
          by_cases hnodes : (!g.hasNodeKey e.source || !g.hasNodeKey e.target) = true
          · rw [if_pos hnodes] at h
            dsimp only at h
            simp only [Bool.not_false, if_true, Except.ok.injEq, Prod.mk.injEq] at h
            rw [← h.1] at hr
            simp at hr
          · rw [if_neg hnodes] at h
            by_cases hpair : g.hasPair e.source e.target
            · rw [if_pos (show g.hasPair e.source e.target = true from hpair)] at h
              simp at h
            · rw [if_neg (by simpa using hpair)] at h
              dsimp only at h
              simp only [Bool.not_true, Bool.false_eq_true, if_false, Except.ok.injEq,
                Prod.mk.injEq] at h
              exact h.2.symm
      · have hv' : (EventStormingAPI.validateEdge e sourceNode targetNode).isValid = false := by
          simpa using hv
        rw [if_pos (by simp [hv'])] at h
        simp only [Except.ok.injEq, Prod.mk.injEq] at h
        rw [← h.1] at hr
        rw [hv'] at hr
        simp at hr

theorem removeEdge_state_shape {g : GGraph} {s t : String} {lab : EdgeLabel} :
    (EventStormingAPI.removeEdge g s t lab).2.nodes = g.nodes ∧
    ∀ q ∈ (EventStormingAPI.removeEdge g s t lab).2.edges, q ∈ g.edges := by
  unfold EventStormingAPI.removeEdge GraphologyAdapter.removeEdge
  by_cases hk : g.hasEdgeKey (mkEdgeKey s lab t)
  · rw [if_pos hk]
    dsimp only
    rw [if_neg (by simp)]
    exact ⟨rfl, fun q hq => List.mem_of_mem_filter hq⟩
  · rw [if_neg hk]
    dsimp only
    rw [if_pos (by simp [hk])]
    exact ⟨rfl, fun q hq => hq⟩

/-- C1 (counterexample): `updateNode('a', { type: 'event' })` on the valid
graph `a --issues--> c` succeeds (`validateNode` checks only the node), but
afterwards the stored edge joins `(event, command)`, which is not in the
compatibility table for `issues` — a successful type-changing `updateNode`
breaks the invariant. -/
theorem C1_type_change_breaks_invariant :
    edgesCompatibleB gAC = true ∧
    (EventStormingAPI.updateNode gAC "a" updToEvent).1.isValid = true ∧
    edgesCompatibleB (EventStormingAPI.updateNode gAC "a" updToEvent).2 = false := by
  refine ⟨by decide, by decide, by decide⟩

/-- C1 (amended): every mutation that returns `isValid = true` preserves the
edge-compatibility invariant, *except* that an `updateNode` must not change
the stored node type (`TypePreserving`); the counterexample shows the
restriction is necessary. -/
theorem C1_invariant_preserved (g : GGraph) (m : Mutation) (r : ValidationResult)
    (g' : GGraph) (hinv : edgesCompatibleB g = true)
    (h : applyMutation m g = .ok (r, g')) (hr : r.isValid = true)
    (htp : TypePreserving g m) :
    edgesCompatibleB g' = true := by
  rw [edgesCompatibleB_iff] at hinv ⊢
  cases m with
  | addNode node =>
    simp only [applyMutation, Except.ok.injEq] at h
    have h2 : (EventStormingAPI.addNode g node).2 = g' := by rw [h]
    have h1 : (EventStormingAPI.addNode g node).1 = r := by rw [h]
    obtain ⟨hstate, _⟩ := addNode_success_state (g := g) (n := node) (by rw [h1]; exact hr)
    rw [← h2, hstate]
    intro q hq
    have hq' : q ∈ g.edges := by simpa [GGraph.insertNode] using hq
    rcases hinv q hq' with ⟨s, t, hs, ht, hc⟩
    refine ⟨s, t, ?_, ?_, hc⟩
    · show lookupKey (g.nodes ++ [(node.id, node)]) q.2.source = some s
      exact lookupKey_append_left hs
    · show lookupKey (g.nodes ++ [(node.id, node)]) q.2.target = some t
      exact lookupKey_append_left ht
  | updateNode id u =>
    simp only [applyMutation, Except.ok.injEq] at h
    have h2 : (EventStormingAPI.updateNode g id u).2 = g' := by rw [h]
    have h1 : (EventStormingAPI.updateNode g id u).1 = r := by rw [h]
    obtain ⟨cur, hcur, _, hstate⟩ :=
      @updateNode_success_state g id u (by rw [h1]; exact hr)
    have hattrsid : g.attrs id = some cur := hcur
    have htype : (mergeNode cur u).type = cur.type := by
      rcases htp with hnone | ⟨cur', hcur', hsome⟩
      · simp [mergeNode, hnone]
      · have hcur'' : GraphologyAdapter.getNode g id = some cur' := hcur'
        rw [hcur] at hcur''
        cases hcur''
        simp [mergeNode, hsome]
    rw [← h2, hstate]
    intro q hq
    have hq' : q ∈ g.edges := hq
    rcases hinv q hq' with ⟨s, t, hs, ht, hc⟩
    have hattrs : ∀ k, ({ g with nodes := g.nodes.map fun p =>
        if p.1 == id then (p.1, mergeNode cur u) else p } : GGraph).attrs k =
        if k = id then (g.attrs k).map (fun _ => mergeNode cur u) else g.attrs k :=
      fun k => lookupKey_map_replace
    by_cases hqs : q.2.source = id
    · have hseq : s = cur := by
        rw [hqs] at hs
        rw [hattrsid] at hs
        exact (Option.some.injEq _ _ ▸ hs.symm : s = cur)
      by_cases hqt : q.2.target = id
      · have hteq : t = cur := by
          rw [hqt] at ht
          rw [hattrsid] at ht
          exact (Option.some.injEq _ _ ▸ ht.symm : t = cur)
        refine ⟨mergeNode cur u, mergeNode cur u, ?_, ?_, ?_⟩
        · rw [hattrs, if_pos hqs, hqs, hattrsid]
          rfl
        · rw [hattrs, if_pos hqt, hqt, hattrsid]
          rfl
        · rw [htype]
          rw [hseq, hteq] at hc
          exact hc
      · refine ⟨mergeNode cur u, t, ?_, ?_, ?_⟩
        · rw [hattrs, if_pos hqs, hqs, hattrsid]
          rfl
        · rw [hattrs, if_neg hqt]
          exact ht
        · rw [htype, ← hseq]
          exact hc
    · by_cases hqt : q.2.target = id
      · have hteq : t = cur := by
          rw [hqt] at ht
          rw [hattrsid] at ht
          exact (Option.some.injEq _ _ ▸ ht.symm : t = cur)
        refine ⟨s, mergeNode cur u, ?_, ?_, ?_⟩
        · rw [hattrs, if_neg hqs]
          exact hs
        · rw [hattrs, if_pos hqt, hqt, hattrsid]
          rfl
        · rw [htype, ← hteq]
          exact hc
      · refine ⟨s, t, ?_, ?_, hc⟩
        · rw [hattrs, if_neg hqs]
          exact hs
        · rw [hattrs, if_neg hqt]
          exact ht
  | removeNode id =>
    simp only [applyMutation, Except.ok.injEq] at h
    have h2 : (EventStormingAPI.removeNode g id).2 = g' := by rw [h]
    have h1 : (EventStormingAPI.removeNode g id).1 = r := by rw [h]
    have hstate := @removeNode_success_state g id (by rw [h1]; exact hr)
    rw [← h2, hstate]
    intro q hq
    have hmem := List.mem_filter.mp hq
    have hq' : q ∈ g.edges := hmem.1
    have hcond := hmem.2
    have hqs : q.2.source ≠ id := by
      intro he
      simp [he] at hcond
    have hqt : q.2.target ≠ id := by
      intro he
      simp [he] at hcond
    rcases hinv q hq' with ⟨s, t, hs, ht, hc⟩
    refine ⟨s, t, ?_, ?_, hc⟩
    · show lookupKey (g.nodes.filter fun p => p.1 != id) q.2.source = some s
      rw [lookupKey_filter_ne hqs]
      exact hs
    · show lookupKey (g.nodes.filter fun p => p.1 != id) q.2.target = some t
      rw [lookupKey_filter_ne hqt]
      exact ht
  | addEdge e =>
    obtain ⟨s, t, hs, ht, hc, hstate⟩ := addEdge_success_state h hr
    rw [hstate]
    intro q hq
    rcases List.mem_append.mp hq with hq' | hnew
    · rcases hinv q hq' with ⟨s', t', hs', ht', hc'⟩
      exact ⟨s', t', hs', ht', hc'⟩
    · have : q = (edgeKeyOf e, e) := by simpa using hnew
      subst this
      exact ⟨s, t, hs, ht, hc⟩
  | removeEdge src tgt lab =>
    simp only [applyMutation, Except.ok.injEq] at h
    have h2 : (EventStormingAPI.removeEdge g src tgt lab).2 = g' := by rw [h]
    obtain ⟨hnodes, hedges⟩ :=
      @removeEdge_state_shape g src tgt lab
    rw [← h2]
    intro q hq
    rcases hinv q (hedges q hq) with ⟨s, t, hs, ht, hc⟩
    refine ⟨s, t, ?_, ?_, hc⟩
    · show lookupKey (EventStormingAPI.removeEdge g src tgt lab).2.nodes q.2.source = some s
      rw [hnodes]
      exact hs
    · show lookupKey (EventStormingAPI.removeEdge g src tgt lab).2.nodes q.2.target = some t
      rw [hnodes]
      exact ht

/-- C1 (witness): adding a fresh event node to the valid graph `gAC`
preserves the invariant. -/
theorem C1_invariant_preserved_witness :
    edgesCompatibleB gAC = true ∧
    applyMutation (.addNode (mkNode "d" "D" .event)) gAC =
      .ok ({ isValid := true, errors := [], warnings := [] },
        gAC.insertNode (mkNode "d" "D" .event)) ∧
    TypePreserving gAC (.addNode (mkNode "d" "D" .event)) ∧
    edgesCompatibleB (gAC.insertNode (mkNode "d" "D" .event)) = true :=
  ⟨by decide, by decide, trivial,
    C1_invariant_preserved gAC (.addNode (mkNode "d" "D" .event))
      { isValid := true, errors := [], warnings := [] }
      (gAC.insertNode (mkNode "d" "D" .event)) (by decide) (by decide) (by decide) trivial⟩

/-! ## C7: export/load round trip -/

theorem isSome_false_eq_none {α : Type} {o : Option α} (h : o.isSome = false) : o = none := by
  cases o with
  | none => rfl
  | some v => simp at h

theorem loadNodes_ok {ns : List EventStormingNode} {acc : GGraph}
    (hnodup : (ns.map (·.id)).Nodup)
    (hfresh : ∀ n ∈ ns, acc.hasNodeKey n.id = false) :
    GraphologyAdapter.loadNodes ns acc =
      ({ nodes := acc.nodes ++ ns.map fun n => (n.id, n), edges := acc.edges }, none) := by
  induction ns generalizing acc with
  | nil => simp [GraphologyAdapter.loadNodes]
  | cons n rest ih =>
    unfold GraphologyAdapter.loadNodes
    rw [hfresh n (List.mem_cons_self n rest)]
    simp only [Bool.false_eq_true, if_false]
    have hh := hnodup
    rw [List.map_cons] at hh
    have hhead : n.id ∉ rest.map (·.id) := (List.nodup_cons.mp hh).1
    have htail : (rest.map (·.id)).Nodup := (List.nodup_cons.mp hh).2
    have hrest : ∀ n' ∈ rest, (acc.insertNode n).hasNodeKey n'.id = false := by
      intro n' hn'
      have hne : n.id ≠ n'.id := by
        intro he
        exact hhead (by rw [he]; exact List.mem_map_of_mem (·.id) hn')
      show (lookupKey (acc.nodes ++ [(n.id, n)]) n'.id).isSome = false
      rw [lookupKey_append_none
        (isSome_false_eq_none (hfresh n' (List.mem_cons_of_mem n hn')))]
      rw [lookupKey_cons]
      have hb : (n.id == n'.id) = false := by simp [hne]
      rw [hb]
      simp
    rw [ih htail hrest]
    simp [GGraph.insertNode]

theorem loadEdges_ok {es : List EventStormingEdge} {acc : GGraph}
    (hends : ∀ e ∈ es, acc.hasNodeKey e.source = true ∧ acc.hasNodeKey e.target = true)
    (hkeys : ∀ e ∈ es, acc.hasEdgeKey (edgeKeyOf e) = false)
    (hnodup : (es.map edgeKeyOf).Nodup)
    (hpair : ∀ e ∈ es, acc.hasPair e.source e.target = false)
    (hpw : es.Pairwise fun a b => ¬(a.source = b.source ∧ a.target = b.target)) :
    GraphologyAdapter.loadEdges es acc =
      ({ nodes := acc.nodes, edges := acc.edges ++ es.map fun e => (edgeKeyOf e, e) },
        none) := by
  induction es generalizing acc with
  | nil => simp [GraphologyAdapter.loadEdges]
  | cons e rest ih =>
    unfold GraphologyAdapter.loadEdges
    obtain ⟨h1, h2⟩ := hends e (List.mem_cons_self e rest)
    rw [h1, h2]
    simp only [Bool.and_self, if_true]
    rw [hkeys e (List.mem_cons_self e rest)]
    simp only [Bool.false_eq_true, if_false]
    rw [hpair e (List.mem_cons_self e rest)]
    simp only [Bool.false_eq_true, if_false]
    have hh := hnodup
    rw [List.map_cons] at hh
    have hkeyhead : edgeKeyOf e ∉ rest.map edgeKeyOf := (List.nodup_cons.mp hh).1
    have hkeytail : (rest.map edgeKeyOf).Nodup := (List.nodup_cons.mp hh).2
    have hpwhead := List.pairwise_cons.mp hpw
    have hends' : ∀ e' ∈ rest, (acc.insertEdge (edgeKeyOf e) e).hasNodeKey e'.source = true ∧
        (acc.insertEdge (edgeKeyOf e) e).hasNodeKey e'.target = true := by
      intro e' he'
      exact hends e' (List.mem_cons_of_mem e he')
    have hkeys' : ∀ e' ∈ rest,
        (acc.insertEdge (edgeKeyOf e) e).hasEdgeKey (edgeKeyOf e') = false := by
      intro e' he'
      show (lookupKey (acc.edges ++ [(edgeKeyOf e, e)]) (edgeKeyOf e')).isSome = false
      rw [lookupKey_append_none
        (isSome_false_eq_none (hkeys e' (List.mem_cons_of_mem e he')))]
      rw [lookupKey_cons]
      have hne : edgeKeyOf e ≠ edgeKeyOf e' := by
        intro he
        exact hkeyhead (he ▸ List.mem_map_of_mem edgeKeyOf he')
      have hb : (edgeKeyOf e == edgeKeyOf e') = false := by simp [hne]
      rw [hb]
      simp
    have hpair' : ∀ e' ∈ rest,
        (acc.insertEdge (edgeKeyOf e) e).hasPair e'.source e'.target = false := by
      intro e' he'
      show ((acc.edges ++ [(edgeKeyOf e, e)]).any fun q =>
        q.2.source == e'.source && q.2.target == e'.target) = false
      rw [List.any_append]
      have hl : (acc.edges.any fun q =>
          q.2.source == e'.source && q.2.target == e'.target) = false :=
        hpair e' (List.mem_cons_of_mem e he')
      have hr : (([(edgeKeyOf e, e)]).any fun q =>
          q.2.source == e'.source && q.2.target == e'.target) = false := by
        have hne := hpwhead.1 e' he'
        simp only [List.any_cons, List.any_nil, Bool.or_false]
        by_cases hse : e.source = e'.source
        · by_cases hte : e.target = e'.target
          · exact absurd ⟨hse, hte⟩ hne
          · simp [hte]
        · simp [hse]
      rw [hl, hr]
      rfl
    rw [ih hends' hkeys' hkeytail hpair' hpwhead.2]
    simp [GGraph.insertEdge]

/-- C7 (counterexample): a graph state reachable through the public API —
`updateNode(\x27a\x27, { id: \x27z\x27 })` succeeds on `a --issues--> c` — on which
`load(export())` loses the edge: the stored attribute id `z` no longer
matches the graph key `a`, so the exported edge references a node id the
reloaded snapshot does not contain and is silently dropped. -/
theorem C7_roundtrip_loses_edge :
    (EventStormingAPI.updateNode gAC "a" updIdZ).1.isValid = true ∧
    gBadId = (EventStormingAPI.updateNode gAC "a" updIdZ).2 ∧
    gBadId.edges.map (·.2) = [eAC] ∧
    (GraphologyAdapter.loadFromEventStormingData
      (GraphologyAdapter.exportToEventStormingData gBadId)).1.edges.map (·.2) = [] := by
  refine ⟨by decide, by decide, by decide, by decide⟩

/-- C7 (amended): on every well-formed graph state (stored ids matching the
keys, edge keys matching their triples, existing endpoints, one edge per
ordered pair — all true of adapter-built states unless `updateNode`
rewrote an `id` attribute), reloading the exported snapshot reproduces the
graph state exactly, hence equal node and edge sets. -/
theorem C7_load_export_roundtrip (g : GGraph) (hwf : WFGraph g) :
    GraphologyAdapter.loadFromEventStormingData
      (GraphologyAdapter.exportToEventStormingData g) = (g, none) := by
  obtain ⟨hnd, hids, hkeyof, hends, hknd, hpw⟩ := hwf
  unfold GraphologyAdapter.loadFromEventStormingData GraphologyAdapter.exportToEventStormingData
  dsimp only
  have hidmap : (g.nodes.map (·.2)).map (·.id) = g.nodes.map Prod.fst := by
    rw [List.map_map]
    exact List.map_eq_map_iff.mpr fun p hp => hids p hp
  have hload1 := @loadNodes_ok (g.nodes.map (·.2)) {}
    (by rw [hidmap]; exact hnd) (fun n _ => rfl)
  rw [hload1]
  dsimp only
  have hnodes1 : (g.nodes.map (·.2)).map (fun n => (n.id, n)) = g.nodes := by
    rw [List.map_map]
    have hcong : ∀ p ∈ g.nodes, ((fun n => (n.id, n)) ∘ (·.2)) p = id p := by
      intro p hp
      simp [hids p hp]
    rw [List.map_eq_map_iff.mpr hcong, List.map_id]
  rw [List.nil_append, hnodes1]
  have hkeymap : (g.edges.map (·.2)).map edgeKeyOf = g.edges.map Prod.fst := by
    rw [List.map_map]
    exact List.map_eq_map_iff.mpr fun q hq => (hkeyof q hq).symm
  have hload2 := @loadEdges_ok (g.edges.map (·.2))
    { nodes := g.nodes, edges := ([] : List (String × EventStormingEdge)) }
    (by
      intro e he
      rcases List.mem_map.mp he with ⟨q, hq, rfl⟩
      exact ⟨(hends q hq).1, (hends q hq).2⟩)
    (fun e _ => rfl)
    (by rw [hkeymap]; exact hknd)
    (fun e _ => rfl)
    (by
      rw [List.pairwise_map]
      exact hpw)
  rw [hload2]
  have hedges1 : (g.edges.map (·.2)).map (fun e => (edgeKeyOf e, e)) = g.edges := by
    rw [List.map_map]
    have hcong : ∀ q ∈ g.edges, ((fun e => (edgeKeyOf e, e)) ∘ (·.2)) q = id q := by
      intro q hq
      simp [(hkeyof q hq).symm]
    rw [List.map_eq_map_iff.mpr hcong, List.map_id]
  dsimp only
  rw [List.nil_append, hedges1]

/-- C7 (witness). -/
theorem C7_load_export_roundtrip_witness :
    WFGraph gScen1b ∧
    GraphologyAdapter.loadFromEventStormingData
      (GraphologyAdapter.exportToEventStormingData gScen1b) = (gScen1b, none) :=
  ⟨by unfold WFGraph NodeIdsMatch EdgeEndpointsExist; decide,
    C7_load_export_roundtrip gScen1b
      (by unfold WFGraph NodeIdsMatch EdgeEndpointsExist; decide)⟩

/-! ## C10: import tolerance for offending edges -/

theorem isSome_lookupKey_of_mem_keys {β : Type} {l : List (String × β)} {k : String}
    (h : k ∈ l.map Prod.fst) : (lookupKey l k).isSome = true := by
  rcases List.mem_map.mp h with ⟨p, hp, rfl⟩
  exact lookupKey_isSome_of_mem hp

theorem loadEdges_inv {E : List EventStormingEdge}
    (hpairs : ∀ e1 ∈ E, ∀ e2 ∈ E,
      e1.source = e2.source → e1.target = e2.target → e1.label = e2.label) :
    ∀ (es : List EventStormingEdge) (acc : GGraph), (∀ e ∈ es, e ∈ E) →
    (∀ q ∈ acc.edges, q.1 = edgeKeyOf q.2 ∧ q.2 ∈ E ∧
      acc.hasNodeKey q.2.source = true ∧ acc.hasNodeKey q.2.target = true) →
    ((acc.edges.map Prod.fst).Nodup) →
    ∃ g : GGraph,
      GraphologyAdapter.loadEdges es acc = (g, none) ∧
      g.nodes = acc.nodes ∧
      (∀ q ∈ g.edges, q.1 = edgeKeyOf q.2 ∧ q.2 ∈ E ∧
        g.hasNodeKey q.2.source = true ∧ g.hasNodeKey q.2.target = true) ∧
      (g.edges.map Prod.fst).Nodup := by
  intro es
  induction es with
  | nil =>
    intro acc _ hinv hnd
    exact ⟨acc, rfl, rfl, hinv, hnd⟩
  | cons e rest ih =>
    intro acc hsub hinv hnd
    have hsub' : ∀ e' ∈ rest, e' ∈ E := fun e' he' => hsub e' (List.mem_cons_of_mem e he')
    have heE : e ∈ E := hsub e (List.mem_cons_self e rest)
    unfold GraphologyAdapter.loadEdges
    cases hnn : (acc.hasNodeKey e.source && acc.hasNodeKey e.target) with
    | false =>
      simp only [Bool.false_eq_true, if_false]
      exact ih acc hsub' hinv hnd
    | true =>
      simp only [if_true]
      cases hkey : acc.hasEdgeKey (edgeKeyOf e) with
      | true =>
        simp only [if_true]
        exact ih acc hsub' hinv hnd
      | false =>
        simp only [Bool.false_eq_true, if_false]
        have hpairfalse : acc.hasPair e.source e.target = false := by
          cases hp : acc.hasPair e.source e.target with
          | false => rfl
          | true =>
            exfalso
            unfold GGraph.hasPair at hp
            rcases List.any_eq_true.mp hp with ⟨q, hq, hcond⟩
            have hqs : q.2.source = e.source := by
              have := (Bool.and_eq_true _ _).mp hcond
              simpa using this.1
            have hqt : q.2.target = e.target := by
              have := (Bool.and_eq_true _ _).mp hcond
              simpa using this.2
            obtain ⟨hqkey, hqE, _, _⟩ := hinv q hq
            have hlab : q.2.label = e.label := hpairs q.2 hqE e heE hqs hqt
            have hkeyeq : q.1 = edgeKeyOf e := by
              rw [hqkey]
              unfold edgeKeyOf mkEdgeKey
              rw [hqs, hqt, hlab]
            have : (lookupKey acc.edges (edgeKeyOf e)).isSome = true := by
              rw [← hkeyeq]
              exact lookupKey_isSome_of_mem hq
            rw [show acc.hasEdgeKey (edgeKeyOf e) =
              (lookupKey acc.edges (edgeKeyOf e)).isSome from rfl] at hkey
            rw [this] at hkey
            exact Bool.true_eq_false.mp hkey
        rw [hpairfalse]
        simp only [Bool.false_eq_true, if_false]
        have hsrc : acc.hasNodeKey e.source = true := ((Bool.and_eq_true _ _).mp hnn).1
        have htgt : acc.hasNodeKey e.target = true := ((Bool.and_eq_true _ _).mp hnn).2
        have hkeynotmem : edgeKeyOf e ∉ acc.edges.map Prod.fst := by
          intro hmem
          have := isSome_lookupKey_of_mem_keys hmem
          rw [show acc.hasEdgeKey (edgeKeyOf e) =
            (lookupKey acc.edges (edgeKeyOf e)).isSome from rfl, this] at hkey
          exact Bool.true_eq_false.mp hkey
        have hinv' : ∀ q ∈ (acc.insertEdge (edgeKeyOf e) e).edges,
            q.1 = edgeKeyOf q.2 ∧ q.2 ∈ E ∧
            (acc.insertEdge (edgeKeyOf e) e).hasNodeKey q.2.source = true ∧
            (acc.insertEdge (edgeKeyOf e) e).hasNodeKey q.2.target = true := by
          intro q hq
          rcases List.mem_append.mp hq with hold | hnew
          · obtain ⟨ha, hb, hc, hd⟩ := hinv q hold
            exact ⟨ha, hb, hc, hd⟩
          · have : q = (edgeKeyOf e, e) := by simpa using hnew
            subst this
            exact ⟨rfl, heE, hsrc, htgt⟩
        have hnd' : ((acc.insertEdge (edgeKeyOf e) e).edges.map Prod.fst).Nodup := by
          show ((acc.edges ++ [(edgeKeyOf e, e)]).map Prod.fst).Nodup
          rw [List.map_append]
          simp [List.nodup_append, hnd, hkeynotmem]
        obtain ⟨g, hload, hn, hi, hndg⟩ :=
          ih (acc.insertEdge (edgeKeyOf e) e) hsub' hinv' hnd'
        exact ⟨g, hload, by rw [hn]; rfl, hi, hndg⟩

/-- C10 (counterexample): a snapshot whose `nodes` array repeats an id makes
the underlying `graph.addNode` throw; `importFromJSON` catches the
`UsageError` and returns `isValid = false` — not the claimed unconditional
`isValid = true`. -/
theorem C10_duplicate_node_ids_fail_import :
    (EventStormingAPI.importParsed dupNodesData).1.isValid = false ∧
    (EventStormingAPI.importParsed dupNodesData).1.errors =
      ["Failed to parse JSON: UsageError: node x already exists"] := by
  refine ⟨by decide, by decide⟩

/-- C10 (amended): for every snapshot whose node ids are pairwise distinct
and in which no two edges join the same ordered node pair under different
labels, loading stores only edges whose endpoints exist and whose keys are
distinct — edges with missing endpoints or an already-taken key are
silently skipped — and `importFromJSON` returns `isValid = true` with no
errors.  (A duplicated node id or a same-pair/different-label edge duo
instead makes graphology throw, turning the import into a parse failure.) -/
theorem C10_import_skips_offending_edges (data : EventStormingGraph)
    (hnodes : (data.nodes.map (·.id)).Nodup)
    (hpairs : ∀ e1 ∈ data.edges, ∀ e2 ∈ data.edges,
      e1.source = e2.source → e1.target = e2.target → e1.label = e2.label) :
    ∃ g : GGraph,
      GraphologyAdapter.loadFromEventStormingData data = (g, none) ∧
      (∀ q ∈ g.edges, q.2 ∈ data.edges ∧ g.hasNodeKey q.2.source = true ∧
        g.hasNodeKey q.2.target = true) ∧
      (g.edges.map Prod.fst).Nodup ∧
      EventStormingAPI.importParsed data =
        ({ isValid := true, errors := [],
           warnings := (EventStormingAPI.validateGraph g).warnings }, g) := by
  have hload1 := @loadNodes_ok data.nodes {} hnodes (fun n _ => rfl)
  obtain ⟨g, hload2, hn, hi, hnd⟩ :=
    loadEdges_inv hpairs data.edges
      { nodes := [] ++ data.nodes.map fun n => (n.id, n), edges := [] }
      (fun e he => he) (by intro q hq; simp at hq) (by simp)
  have hloadall : GraphologyAdapter.loadFromEventStormingData data = (g, none) := by
    unfold GraphologyAdapter.loadFromEventStormingData
    rw [hload1]
    dsimp only
    exact hload2
  refine ⟨g, hloadall, ?_, hnd, ?_⟩
  · intro q hq
    obtain ⟨_, hb, hc, hd⟩ := hi q hq
    exact ⟨hb, hc, hd⟩
  · unfold EventStormingAPI.importParsed
    rw [hloadall]

/-- C10 (witness): a snapshot holding a dangling edge and an exact duplicate
triple loads with both offenders skipped and imports with `isValid = true`. -/
theorem C10_import_skips_offending_edges_witness :
    (messySnapshot.nodes.map (·.id)).Nodup ∧
    (∀ e1 ∈ messySnapshot.edges, ∀ e2 ∈ messySnapshot.edges,
      e1.source = e2.source → e1.target = e2.target → e1.label = e2.label) ∧
    (∃ g : GGraph,
      GraphologyAdapter.loadFromEventStormingData messySnapshot = (g, none) ∧
      (∀ q ∈ g.edges, q.2 ∈ messySnapshot.edges ∧ g.hasNodeKey q.2.source = true ∧
        g.hasNodeKey q.2.target = true) ∧
      (g.edges.map Prod.fst).Nodup ∧
      EventStormingAPI.importParsed messySnapshot =
        ({ isValid := true, errors := [],
           warnings := (EventStormingAPI.validateGraph g).warnings }, g)) :=
  ⟨by decide, by decide,
    C10_import_skips_offending_edges messySnapshot (by decide) (by decide)⟩

/-! ## C8: execution-path classification -/

theorem dfs_ends {g : GGraph} {tgt : String} :
    ∀ (fuel : Nat) (visited : List String) (cur : String) (path : List String)
      (p : List String), p ∈ GraphologyAdapter.dfs g tgt fuel visited cur path →
      ∃ pre, p = pre ++ [tgt] := by
  intro fuel
  induction fuel with
  | zero =>
    intro visited cur path p hp
    simp [GraphologyAdapter.dfs] at hp
  | succ fuel ih =>
    intro visited cur path p hp
    unfold GraphologyAdapter.dfs at hp
    by_cases hcur : (cur == tgt) = true
    · rw [if_pos hcur] at hp
      have : p = path ++ [cur] := by simpa using hp
      exact ⟨path, by rw [this, (beq_iff_eq.mp hcur)]⟩
    · rw [if_neg (by simpa using hcur)] at hp
      by_cases hvis : (visited.contains cur) = true
      · rw [if_pos hvis] at hp
        simp at hp
      · rw [if_neg (by simpa using hvis)] at hp
        rcases List.mem_flatMap.mp hp with ⟨nb, _, hrec⟩
        exact ih _ _ _ _ hrec

theorem outNeighborsByLabel_getNode {g : GGraph} {id : String} {lab : EdgeLabel}
    {e : EventStormingNode} (hids : NodeIdsMatch g)
    (h : e ∈ GraphologyAdapter.getOutNeighborsByLabel g id lab) :
    GraphologyAdapter.getNode g e.id = some e := by
  unfold GraphologyAdapter.getOutNeighborsByLabel at h
  by_cases hk : g.hasNodeKey id
  · rw [if_pos hk] at h
    rcases List.mem_filterMap.mp h with ⟨q, _, hattr⟩
    have hmem := mem_of_lookupKey hattr
    have hid : e.id = q.2.target := hids (q.2.target, e) hmem
    show g.attrs e.id = some e
    rw [hid]
    exact hattr
  · rw [if_neg hk] at h
    simp at h

theorem getLast_filterMap_of_last {α β : Type} {p : List α} {pre : List α} {a : α}
    {f : α → Option β} {b : β} (hp : p = pre ++ [a]) (hf : f a = some b) :
    (p.filterMap f).getLast? = some b := by
  rw [hp, List.filterMap_append]
  have : ([a].filterMap f) = [b] := by simp [hf]
  rw [this]
  exact List.getLast?_concat _

/-- C8: every path entry produced by `getCommandExecutionPaths` ends at the
event it was enumerated for, and its `pathType` is `POLICY_PATH` whenever
that event has an outgoing `then (policy)` edge (regardless of the label),
otherwise `ERROR_PATH` when the event label contains "error" or "failed"
case-insensitively, otherwise `HAPPY_PATH` — the policy check overrides the
error classification in exactly that order. -/
theorem C8_path_classification (g : GGraph) (commandId : String) (hids : NodeIdsMatch g)
    (entry : ExecutionPathEntry)
    (hmem : entry ∈ (EventStormingAPI.getCommandExecutionPaths g commandId).paths) :
    ∃ e, e ∈ GraphologyAdapter.getOutNeighborsByLabel g commandId .thenEvt ∧
      entry.path.getLast? = some e ∧
      entry.pathType =
        (if (GraphologyAdapter.getOutNeighborsByLabel g e.id .thenPolicy).length > 0 then
          PathType.POLICY_PATH
        else if strIncludes (lowerStr e.label) "error" ||
            strIncludes (lowerStr e.label) "failed" then
          PathType.ERROR_PATH
        else PathType.HAPPY_PATH) := by
  unfold EventStormingAPI.getCommandExecutionPaths at hmem
  cases hc : GraphologyAdapter.getNode g commandId with
  | none =>
    rw [hc] at hmem
    simp at hmem
  | some command =>
    rw [hc] at hmem
    dsimp only at hmem
    by_cases hb : (command.type != NodeType.command) = true
    · rw [if_pos hb] at hmem
      simp at hmem
    · rw [if_neg hb] at hmem
      dsimp only at hmem
      rcases List.mem_flatMap.mp hmem with ⟨event, hevent, hentry⟩
      rcases List.mem_map.mp hentry with ⟨pathIds, hpath, hE⟩
      refine ⟨event, hevent, ?_, ?_⟩
      · have hnode : GraphologyAdapter.getNode g event.id = some event :=
          outNeighborsByLabel_getNode hids hevent
        unfold GraphologyAdapter.findAllPaths at hpath
        by_cases hguard :
            (!g.hasNodeKey commandId || !g.hasNodeKey event.id) = true
        · rw [if_pos hguard] at hpath
          simp at hpath
        · rw [if_neg hguard] at hpath
          obtain ⟨pre, hpre⟩ := dfs_ends _ _ _ _ _ hpath
          rw [← hE]
          exact getLast_filterMap_of_last hpre hnode
      · rw [← hE]

/-- C8 (witness): in the two-node cycle the single enumerated path ends at
the event `n2`, which has an outgoing `then (policy)` edge, so its type is
`POLICY_PATH`. -/
theorem C8_path_classification_witness :
    NodeIdsMatch gCycle ∧
    ({ path := [mkNode "n1" "N1" .command, mkNode "n2" "N2" .event],
       pathType := .POLICY_PATH, description := "N1 → N2 → Policy Actions" } :
        ExecutionPathEntry) ∈
      (EventStormingAPI.getCommandExecutionPaths gCycle "n1").paths ∧
    (∃ e, e ∈ GraphologyAdapter.getOutNeighborsByLabel gCycle "n1" .thenEvt ∧
      ([mkNode "n1" "N1" .command, mkNode "n2" "N2" .event] :
        List EventStormingNode).getLast? = some e ∧
      PathType.POLICY_PATH =
        (if (GraphologyAdapter.getOutNeighborsByLabel gCycle e.id .thenPolicy).length > 0 then
          PathType.POLICY_PATH
        else if strIncludes (lowerStr e.label) "error" ||
            strIncludes (lowerStr e.label) "failed" then
          PathType.ERROR_PATH
        else PathType.HAPPY_PATH)) :=
  ⟨by unfold NodeIdsMatch; decide, by decide,
    C8_path_classification gCycle "n1" (by unfold NodeIdsMatch; decide)
      { path := [mkNode "n1" "N1" .command, mkNode "n2" "N2" .event],
        pathType := .POLICY_PATH, description := "N1 → N2 → Policy Actions" }
      (by decide)⟩

/-! ## C5: impact analysis -/

theorem outNeighborKeys_subset_targets {g : GGraph} {c x : String}
    (h : x ∈ g.outNeighborKeys c) : x ∈ dedupF (g.edges.map fun q => q.2.target) := by
  unfold GGraph.outNeighborKeys at h
  rw [mem_dedupF] at h
  rw [mem_dedupF]
  rcases List.mem_map.mp h with ⟨q, hq, rfl⟩
  exact List.mem_map_of_mem _ (List.mem_of_mem_filter hq)

theorem outNeighborKeys_length_le (g : GGraph) (c : String) :
    (g.outNeighborKeys c).length ≤ g.edges.length := by
  unfold GGraph.outNeighborKeys
  calc (dedupF ((g.edges.filter fun q => q.2.source == c).map fun q => q.2.target)).length
      ≤ ((g.edges.filter fun q => q.2.source == c).map fun q => q.2.target).length :=
        length_dedupF_le _
    _ = (g.edges.filter fun q => q.2.source == c).length := List.length_map _ _
    _ ≤ g.edges.length := List.length_filter_le _ _

theorem reach_eq_or_target {g : GGraph} {d x : String} (h : Reach g d x) :
    x = d ∨ x ∈ g.edges.map fun q => q.2.target := by
  induction h with
  | refl => exact Or.inl rfl
  | tail _ step _ =>
    right
    unfold StepTo GGraph.outNeighborKeys at step
    rw [mem_dedupF] at step
    rcases List.mem_map.mp step with ⟨q, hq, rfl⟩
    exact List.mem_map_of_mem _ (List.mem_of_mem_filter hq)

theorem target_attrs {g : GGraph} {k : String} (hids : NodeIdsMatch g)
    (hends : EdgeEndpointsExist g) (hk : k ∈ g.edges.map fun q => q.2.target) :
    ∃ n, g.attrs k = some n ∧ n.id = k := by
  rcases List.mem_map.mp hk with ⟨q, hq, rfl⟩
  have h2 := (hends q hq).2
  unfold GGraph.hasNodeKey at h2
  cases hl : lookupKey g.nodes q.2.target with
  | none => rw [hl] at h2; simp at h2
  | some n =>
    exact ⟨n, hl, hids (q.2.target, n) (mem_of_lookupKey hl)⟩

theorem filterMap_attrs_ids {g : GGraph} :
    ∀ {l : List String}, (∀ k ∈ l, ∃ n, g.attrs k = some n ∧ n.id = k) →
      ((l.filterMap fun k => g.attrs k).map (·.id)) = l := by
  intro l
  induction l with
  | nil => intro _; rfl
  | cons k rest ih =>
    intro h
    rcases h k (List.mem_cons_self k rest) with ⟨n, hn, hid⟩
    rw [List.filterMap_cons, hn]
    simp only [List.map_cons, hid]
    rw [ih fun k' hk' => h k' (List.mem_cons_of_mem k hk')]

theorem bfs_terminal (g : GGraph) (v : String) (D : List String)
    (visited allR : List String)
    (hVreach : ∀ x ∈ visited, x = v ∨ ∃ d ∈ D, Reach g d x)
    (hall : ∀ x, x ∈ allR ↔ x ∈ D ∨ (x ∈ visited ∧ x ≠ v))
    (hclosed : ∀ x ∈ visited, ∀ y ∈ g.outNeighborKeys x, y ∈ visited)
    (hDv : ∀ d ∈ D, d ∈ visited) :
    ∀ x, x ∈ allR ↔ x ∈ D ∨ ((∃ d ∈ D, Reach g d x) ∧ x ≠ v) := by
  intro x
  constructor
  · intro hx
    rcases (hall x).mp hx with hD | ⟨hvis, hne⟩
    · exact Or.inl hD
    · rcases hVreach x hvis with rfl | hr
      · exact absurd rfl hne
      · exact Or.inr ⟨hr, hne⟩
  · rintro (hD | ⟨⟨d, hd, hreach⟩, hne⟩)
    · exact (hall x).mpr (Or.inl hD)
    · refine (hall x).mpr (Or.inr ⟨?_, hne⟩)
      have hstep : ∀ y, Reach g d y → y ∈ visited := by
        intro y hy
        induction hy with
        | refl => exact hDv d hd
        | tail _ step ih => exact hclosed _ ih _ step
      exact hstep x hreach

theorem bfsGo_spec (g : GGraph) (v : String) (D : List String) :
    ∀ (fuel : Nat) (visited allR queue : List String),
    (∀ x ∈ queue, x ∈ dedupF (g.edges.map fun q => q.2.target)) →
    (queue.length +
      ((dedupF (g.edges.map fun q => q.2.target)).filter
        fun x => !(visited.contains x)).length * (1 + g.edges.length) ≤ fuel) →
    (∀ x ∈ queue, ∃ d ∈ D, Reach g d x) →
    (∀ x ∈ visited, x = v ∨ ∃ d ∈ D, Reach g d x) →
    (∀ x, x ∈ allR ↔ x ∈ D ∨ (x ∈ visited ∧ x ≠ v)) →
    (∀ x ∈ visited, ∀ y ∈ g.outNeighborKeys x, y ∈ visited ∨ y ∈ queue) →
    (∀ d ∈ D, d ∈ visited ∨ d ∈ queue) →
    v ∈ visited →
    allR.Nodup →
    ((GraphologyAdapter.bfsGo g fuel visited allR queue).Nodup ∧
      ∀ x, x ∈ GraphologyAdapter.bfsGo g fuel visited allR queue ↔
        x ∈ D ∨ ((∃ d ∈ D, Reach g d x) ∧ x ≠ v)) := by
  intro fuel
  induction fuel with
  | zero =>
    intro visited allR queue hqU hfuel hQreach hVreach hall hclosed hD hvin hnodup
    have hqnil : queue = [] := by
      have : queue.length = 0 := by omega
      exact List.length_eq_zero.mp this
    subst hqnil
    refine ⟨hnodup, ?_⟩
    exact bfs_terminal g v D visited allR hVreach hall
      (fun x hx y hy => (hclosed x hx y hy).resolve_right (by simp))
      (fun d hd => (hD d hd).resolve_right (by simp))
  | succ fuel ih =>
    intro visited allR queue hqU hfuel hQreach hVreach hall hclosed hD hvin hnodup
    cases queue with
    | nil =>
      refine ⟨hnodup, ?_⟩
      exact bfs_terminal g v D visited allR hVreach hall
        (fun x hx y hy => (hclosed x hx y hy).resolve_right (by simp))
        (fun d hd => (hD d hd).resolve_right (by simp))
    | cons c rest =>
      unfold GraphologyAdapter.bfsGo
      by_cases hc : (visited.contains c) = true
      · rw [if_pos hc]
        refine ih visited allR rest (fun x hx => hqU x (List.mem_cons_of_mem c hx))
          ?_ (fun x hx => hQreach x (List.mem_cons_of_mem c hx)) hVreach hall
          ?_ ?_ hvin hnodup
        · have : (c :: rest).length = rest.length + 1 := rfl
          omega
        · intro x hx y hy
          rcases hclosed x hx y hy with hy1 | hy2
          · exact Or.inl hy1
          · rcases List.mem_cons.mp hy2 with rfl | hy3
            · exact Or.inl (by simpa [List.elem_eq_mem] using hc)
            · exact Or.inr hy3
        · intro d hd
          rcases hD d hd with hd1 | hd2
          · exact Or.inl hd1
          · rcases List.mem_cons.mp hd2 with rfl | hd3
            · exact Or.inl (by simpa [List.elem_eq_mem] using hc)
            · exact Or.inr hd3
      · rw [if_neg hc]
        dsimp only
        have hcnv : c ∉ visited := by simpa [List.elem_eq_mem] using hc
        have hcU : c ∈ dedupF (g.edges.map fun q => q.2.target) :=
          hqU c (List.mem_cons_self c rest)
        have hcreach : ∃ d ∈ D, Reach g d c := hQreach c (List.mem_cons_self c rest)
        have hcnev : c ≠ v := fun he => hcnv (he ▸ hvin)
        refine ih (visited ++ [c]) (GraphologyAdapter.addSet allR c)
          (rest ++ (g.outNeighborKeys c).filter fun nb => !((visited ++ [c]).contains nb))
          ?_ ?_ ?_ ?_ ?_ ?_ ?_ ?_ ?_
        · intro x hx
          rcases List.mem_append.mp hx with hx1 | hx2
          · exact hqU x (List.mem_cons_of_mem c hx1)
          · exact outNeighborKeys_subset_targets (List.mem_of_mem_filter hx2)
        · have hpushlen :
              ((g.outNeighborKeys c).filter fun nb =>
                !((visited ++ [c]).contains nb)).length ≤ g.edges.length :=
            le_trans (List.length_filter_le _ _) (outNeighborKeys_length_le g c)
          have hfilter := length_filter_visited_succ_le
            (U := dedupF (g.edges.map fun q => q.2.target)) hcU hcnv
          have hmul := Nat.mul_le_mul_right (1 + g.edges.length) hfilter
          rw [Nat.add_mul, Nat.one_mul] at hmul
          rw [List.length_append]
          have hql : (c :: rest).length = rest.length + 1 := rfl
          omega
        · intro x hx
          rcases List.mem_append.mp hx with hx1 | hx2
          · exact hQreach x (List.mem_cons_of_mem c hx1)
          · rcases hcreach with ⟨d, hd, hdc⟩
            have hstep : StepTo g c x := List.mem_of_mem_filter hx2
            exact ⟨d, hd, Relation.ReflTransGen.tail hdc hstep⟩
        · intro x hx
          rcases List.mem_append.mp hx with hx1 | hx2
          · exact hVreach x hx1
          · have : x = c := by simpa using hx2
            subst this
            exact Or.inr hcreach
        · intro x
          rw [mem_addSet]
          constructor
          · rintro (hx | hxc)
            · rcases (hall x).mp hx with h1 | ⟨h2, h3⟩
              · exact Or.inl h1
              · exact Or.inr ⟨List.mem_append_left _ h2, h3⟩
            · subst hxc
              exact Or.inr ⟨List.mem_append_right _ (List.mem_singleton_self _), hcnev⟩
          · rintro (h1 | ⟨h2, h3⟩)
            · exact Or.inl ((hall x).mpr (Or.inl h1))
            · rcases List.mem_append.mp h2 with h4 | h5
              · exact Or.inl ((hall x).mpr (Or.inr ⟨h4, h3⟩))
              · exact Or.inr (by simpa using h5)
        · intro x hx y hy
          rcases List.mem_append.mp hx with hx1 | hx2
          · rcases hclosed x hx1 y hy with h1 | h2
            · exact Or.inl (List.mem_append_left _ h1)
            · rcases List.mem_cons.mp h2 with rfl | h3
              · exact Or.inl (List.mem_append_right _ (List.mem_singleton_self y))
              · exact Or.inr (List.mem_append_left _ h3)
          · have hxc : x = c := by simpa using hx2
            subst hxc
            by_cases hyv : y ∈ visited ++ [x]
            · exact Or.inl hyv
            · refine Or.inr (List.mem_append_right _ (List.mem_filter.mpr ⟨hy, ?_⟩))
              simp only [Bool.not_eq_true', List.elem_eq_mem, decide_eq_false_iff_not]
              exact hyv
        · intro d hd
          rcases hD d hd with h1 | h2
          · exact Or.inl (List.mem_append_left _ h1)
          · rcases List.mem_cons.mp h2 with rfl | h3
            · exact Or.inl (List.mem_append_right _ (List.mem_singleton_self d))
            · exact Or.inr (List.mem_append_left _ h3)
        · exact List.mem_append_left _ hvin
        · exact nodup_addSet hnodup

/-- C5 (amended): for an existing node `v`, `directImpact` is exactly the
list of distinct out-neighbours; a node id is in `indirectImpact` iff it is
forward-reachable from some out-neighbour, outside the direct set, *and
different from `v` itself* (the BFS pre-marks `v` visited, so a cycle back
to `v` is never reported); `totalReach` is the size of the union of the
direct and indirect id sets.  The last conjuncts check Scenario 5. -/
theorem C5_impact_analysis (g : GGraph) (v : String)
    (hids : NodeIdsMatch g) (hends : EdgeEndpointsExist g)
    (hv : g.hasNodeKey v = true) :
    (GraphologyAdapter.getImpactAnalysis g v).directImpact.map (·.id) =
      g.outNeighborKeys v ∧
    (∀ x, x ∈ (GraphologyAdapter.getImpactAnalysis g v).indirectImpact.map (·.id) ↔
      ((∃ d ∈ g.outNeighborKeys v, Reach g d x) ∧ x ∉ g.outNeighborKeys v ∧ x ≠ v)) ∧
    (∃ u : List String, u.Nodup ∧
      (∀ x, x ∈ u ↔
        x ∈ (GraphologyAdapter.getImpactAnalysis g v).directImpact.map (·.id) ∨
        x ∈ (GraphologyAdapter.getImpactAnalysis g v).indirectImpact.map (·.id)) ∧
      (GraphologyAdapter.getImpactAnalysis g v).totalReach = u.length) ∧
    (GraphologyAdapter.getImpactAnalysis gChain "n1").directImpact.map (·.id) =
      ["n2", "n4"] ∧
    (GraphologyAdapter.getImpactAnalysis gChain "n1").totalReach = 3 := by
  have hDattr : ∀ k ∈ g.outNeighborKeys v, ∃ n, g.attrs k = some n ∧ n.id = k := by
    intro k hk
    exact target_attrs hids hends (mem_dedupF.mp (outNeighborKeys_subset_targets hk))
  have himp : GraphologyAdapter.getImpactAnalysis g v =
      { directImpact := (g.outNeighborKeys v).filterMap fun k => g.attrs k
        indirectImpact :=
          ((GraphologyAdapter.bfsGo g
              (GraphologyAdapter.bfsFuel g (g.outNeighborKeys v)) [v]
              (g.outNeighborKeys v) (g.outNeighborKeys v)).filter fun rid =>
            !(((g.outNeighborKeys v).filterMap fun k => g.attrs k).any
              fun n => n.id == rid)).filterMap fun rid => g.attrs rid
        totalReach := (GraphologyAdapter.bfsGo g
            (GraphologyAdapter.bfsFuel g (g.outNeighborKeys v)) [v]
            (g.outNeighborKeys v) (g.outNeighborKeys v)).length } := by
    unfold GraphologyAdapter.getImpactAnalysis
    rw [hv]
    rfl
  have hDnodup : (g.outNeighborKeys v).Nodup := by
    unfold GGraph.outNeighborKeys
    exact nodup_dedupF _
  obtain ⟨hARnodup, hARmem⟩ := bfsGo_spec g v (g.outNeighborKeys v)
    (GraphologyAdapter.bfsFuel g (g.outNeighborKeys v)) [v] (g.outNeighborKeys v)
    (g.outNeighborKeys v)
    (fun x hx => outNeighborKeys_subset_targets hx)
    (by
      unfold GraphologyAdapter.bfsFuel
      have h1 := List.length_filter_le (fun x => !(([v] : List String).contains x))
        (dedupF (g.edges.map fun q => q.2.target))
      have h2 := Nat.mul_le_mul_right (1 + g.edges.length) h1
      omega)
    (fun x hx => ⟨x, hx, Relation.ReflTransGen.refl⟩)
    (fun x hx => Or.inl (by simpa using hx))
    (by
      intro x
      constructor
      · exact Or.inl
      · rintro (h | ⟨h1, h2⟩)
        · exact h
        · exact absurd (by simpa using h1) h2)
    (by
      intro x hx y hy
      have : x = v := by simpa using hx
      subst this
      exact Or.inr hy)
    (fun d hd => Or.inr hd)
    (List.mem_singleton_self v)
    hDnodup
  have hDIids : ((g.outNeighborKeys v).filterMap fun k => g.attrs k).map (·.id) =
      g.outNeighborKeys v := filterMap_attrs_ids hDattr
  have hAny : ∀ rid, (((g.outNeighborKeys v).filterMap fun k => g.attrs k).any
      fun n => n.id == rid) = true ↔ rid ∈ g.outNeighborKeys v := by
    intro rid
    rw [List.any_eq_true]
    constructor
    · rintro ⟨n, hn, hb⟩
      have : n.id = rid := by simpa using hb
      rw [← this, ← hDIids]
      exact List.mem_map_of_mem _ hn
    · intro hr
      rw [← hDIids] at hr
      rcases List.mem_map.mp hr with ⟨n, hn, hid⟩
      exact ⟨n, hn, by simp [hid]⟩
  have hARattr : ∀ rid ∈ GraphologyAdapter.bfsGo g
      (GraphologyAdapter.bfsFuel g (g.outNeighborKeys v)) [v]
      (g.outNeighborKeys v) (g.outNeighborKeys v),
      ∃ n, g.attrs rid = some n ∧ n.id = rid := by
    intro rid hrid
    rcases (hARmem rid).mp hrid with hD | ⟨⟨d, hd, hr⟩, _⟩
    · exact hDattr rid hD
    · rcases reach_eq_or_target hr with rfl | htgt
      · exact hDattr rid hd
      · exact target_attrs hids hends htgt
  have hIattr : ∀ rid ∈ (GraphologyAdapter.bfsGo g
      (GraphologyAdapter.bfsFuel g (g.outNeighborKeys v)) [v]
      (g.outNeighborKeys v) (g.outNeighborKeys v)).filter fun rid =>
        !(((g.outNeighborKeys v).filterMap fun k => g.attrs k).any
          fun n => n.id == rid),
      ∃ n, g.attrs rid = some n ∧ n.id = rid :=
    fun rid hrid => hARattr rid (List.mem_of_mem_filter hrid)
  have hIids := filterMap_attrs_ids hIattr
  refine ⟨?_, ?_, ?_, by decide, by decide⟩
  · rw [himp]
    exact hDIids
  · intro x
    rw [himp]
    dsimp only
    rw [hIids, List.mem_filter]
    constructor
    · rintro ⟨hAR, hp⟩
      have hnotD : x ∉ g.outNeighborKeys v := by
        intro hxD
        have := (hAny x).mpr hxD
        rw [this] at hp
        simp at hp
      rcases (hARmem x).mp hAR with hD | ⟨hr, hne⟩
      · exact absurd hD hnotD
      · exact ⟨hr, hnotD, hne⟩
    · rintro ⟨hr, hnotD, hne⟩
      refine ⟨(hARmem x).mpr (Or.inr ⟨hr, hne⟩), ?_⟩
      cases hb : ((g.outNeighborKeys v).filterMap fun k => g.attrs k).any
          fun n => n.id == x with
      | false => rfl
      | true => exact absurd ((hAny x).mp hb) hnotD
  · refine ⟨GraphologyAdapter.bfsGo g
      (GraphologyAdapter.bfsFuel g (g.outNeighborKeys v)) [v]
      (g.outNeighborKeys v) (g.outNeighborKeys v), hARnodup, ?_, by rw [himp]⟩
    intro x
    rw [himp]
    dsimp only
    rw [hDIids, hIids]
    constructor
    · intro hAR
      by_cases hxD : x ∈ g.outNeighborKeys v
      · exact Or.inl hxD
      · refine Or.inr (List.mem_filter.mpr ⟨hAR, ?_⟩)
        cases hb : ((g.outNeighborKeys v).filterMap fun k => g.attrs k).any
            fun n => n.id == x with
        | false => rfl
        | true => exact absurd ((hAny x).mp hb) hxD
    · rintro (hxD | hxI)
      · exact (hARmem x).mpr (Or.inl hxD)
      · exact List.mem_of_mem_filter hxI

/-- C5 (counterexample): in the two-node cycle `n1 -> n2 -> n1`, the start
node `n1` is forward-reachable from its out-neighbour `n2` and outside the
direct set, so the claim would place it in `indirectImpact` (making
`totalReach` 2), but the implementation pre-marks the start node visited and
returns an empty `indirectImpact` with `totalReach` 1. -/
theorem C5_cycle_start_excluded :
    "n2" ∈ gCycle.outNeighborKeys "n1" ∧
    Reach gCycle "n2" "n1" ∧
    "n1" ∉ gCycle.outNeighborKeys "n1" ∧
    (GraphologyAdapter.getImpactAnalysis gCycle "n1").indirectImpact = [] ∧
    (GraphologyAdapter.getImpactAnalysis gCycle "n1").totalReach = 1 :=
  ⟨by decide,
    Relation.ReflTransGen.single (by show "n1" ∈ gCycle.outNeighborKeys "n2"; decide),
    by decide, by decide, by decide⟩

/-- C5 (witness). -/
theorem C5_impact_analysis_witness :
    NodeIdsMatch gChain ∧ EdgeEndpointsExist gChain ∧ gChain.hasNodeKey "n1" = true ∧
    ((GraphologyAdapter.getImpactAnalysis gChain "n1").directImpact.map (·.id) =
      gChain.outNeighborKeys "n1" ∧
    (∀ x, x ∈ (GraphologyAdapter.getImpactAnalysis gChain "n1").indirectImpact.map (·.id) ↔
      ((∃ d ∈ gChain.outNeighborKeys "n1", Reach gChain d x) ∧
        x ∉ gChain.outNeighborKeys "n1" ∧ x ≠ "n1")) ∧
    (∃ u : List String, u.Nodup ∧
      (∀ x, x ∈ u ↔
        x ∈ (GraphologyAdapter.getImpactAnalysis gChain "n1").directImpact.map (·.id) ∨
        x ∈ (GraphologyAdapter.getImpactAnalysis gChain "n1").indirectImpact.map (·.id)) ∧
      (GraphologyAdapter.getImpactAnalysis gChain "n1").totalReach = u.length) ∧
    (GraphologyAdapter.getImpactAnalysis gChain "n1").directImpact.map (·.id) =
      ["n2", "n4"] ∧
    (GraphologyAdapter.getImpactAnalysis gChain "n1").totalReach = 3) :=
  ⟨by unfold NodeIdsMatch; decide, by unfold EdgeEndpointsExist; decide, by decide,
    C5_impact_analysis gChain "n1" (by unfold NodeIdsMatch; decide)
      (by unfold EdgeEndpointsExist; decide) (by decide)⟩
